import Mathlib

/-!
# Verification of the shadowplay.rs capture-to-encode core

This file gives a shallow embedding of the core of the `shadowplay.rs`
repository — the three BGRA→planar-YUV converters in `src/convert.rs` and the
timing / error-handling logic of the recording loop in `src/main.rs` — and
proves (or refutes) the frozen specification claims about it.

Modelling conventions:
* Rust byte buffers (`&[u8]`, `Vec<u8>`) are `List Nat` whose elements are the
  byte values.
* Rust `i32` arithmetic is `Int` arithmetic (no intermediate in these
  computations can come close to `i32` overflow, the largest magnitude being
  `112*255 + 128`-sized sums, so plain `Int` is faithful).
* Rust's `/` on `i32` truncates toward zero, which is `Int.tdiv` (Lean's own
  `/` on `Int` rounds differently and is therefore not used).
* A Rust indexing write `yuv[i] = v` panics when `i` is out of bounds; it is
  modelled by `writeAt`, which returns `none` exactly in the panic case, and
  the converters therefore return `Option (List Nat)`: `some buf` models a
  normal return, `none` models a panic.
* `src.array_chunks::<4>()` yields the complete 4-byte chunks in order and
  ignores a trailing remainder; `chunks4` below does exactly that.
-/

/-- `clamp` from `src/convert.rs`: `x.min(255).max(0) as u8`.  The `min`/`max`
force the value into `[0,255]`, where the `u8` cast is the identity, so the
result is modelled as the corresponding `Nat`. -/
def clamp (x : Int) : Nat := (max (min x 255) 0).toNat

/-- Model of a Rust indexed write `l[i] = v` on a `Vec<u8>`: in bounds it
replaces the element, out of bounds it panics (`none`). -/
def writeAt (l : List Nat) (i v : Nat) : Option (List Nat) :=
  if i < l.length then some (l.set i v) else none

/-- One BGRA chunk as produced by `src.array_chunks::<4>()`:
`(b, g, r, alpha)` in buffer order. -/
abbrev Chunk := Nat × Nat × Nat × Nat

/-- `src.array_chunks::<4>()`: the complete 4-byte chunks of `src` in order,
ignoring any trailing remainder of fewer than 4 bytes. -/
def chunks4 : List Nat → List Chunk
  | b :: g :: r :: a :: rest => (b, g, r, a) :: chunks4 rest
  | _ => []

/-- The `calc_y` closure of `argb_to_yuv420_with_subsampling` (the same luma
formula is inlined in all three converters):
`clamp((66*r + 129*g + 25*b + 128) / 256 + 16)` with Rust (toward-zero)
division. The argument is the `[r, g, b]` triple as `i32`s. -/
def calc_y : Int × Int × Int → Nat
  | (r, g, b) => clamp ((66 * r + 129 * g + 25 * b + 128).tdiv 256 + 16)

/-- The `calc_u` closure of `argb_to_yuv420_with_subsampling` (unclamped):
`(-38*r - 74*g + 112*b + 128) / 256 + 128` with Rust (toward-zero) division. -/
def calc_u : Int × Int × Int → Int
  | (r, g, b) => (-38 * r - 74 * g + 112 * b + 128).tdiv 256 + 128

/-- The `calc_v` closure of `argb_to_yuv420_with_subsampling` (unclamped):
`(112*r - 94*g - 18*b + 128) / 256 + 128` with Rust (toward-zero) division. -/
def calc_v : Int × Int × Int → Int
  | (r, g, b) => (112 * r - 94 * g - 18 * b + 128).tdiv 256 + 128

/-- The loop of `argb_to_yuv420` (`src/convert.rs` lines 14–35).  State:
remaining pixel chunks, `y_index`, `u_index`, `v_index`, `column_index`,
`row_index`, and the `yuv` output vector.  Each iteration writes the luma
sample, writes chroma samples when both `column_index` and `row_index` are
even, and advances the column/row counters exactly as the source does. -/
def yuv420Go (width : Nat) :
    List Chunk → Nat → Nat → Nat → Nat → Nat → List Nat → Option (List Nat)
  | [], _, _, _, _, _, yuv => some yuv
  | (b, g, r, _) :: rest, y_index, u_index, v_index, column_index, row_index, yuv =>
    let ri : Int := r
    let gi : Int := g
    let bi : Int := b
    match writeAt yuv y_index (clamp ((66 * ri + 129 * gi + 25 * bi + 128).tdiv 256 + 16)) with
    | none => none
    | some yuv =>
      if column_index % 2 == 0 && row_index % 2 == 0 then
        match writeAt yuv u_index (clamp ((-38 * ri - 74 * gi + 112 * bi + 128).tdiv 256 + 128)) with
        | none => none
        | some yuv =>
          match writeAt yuv v_index (clamp ((112 * ri - 94 * gi - 18 * bi + 128).tdiv 256 + 128)) with
          | none => none
          | some yuv =>
            if column_index + 1 == width then
              yuv420Go width rest (y_index + 1) (u_index + 1) (v_index + 1) 0 (row_index + 1) yuv
            else
              yuv420Go width rest (y_index + 1) (u_index + 1) (v_index + 1) (column_index + 1) row_index yuv
      else
        if column_index + 1 == width then
          yuv420Go width rest (y_index + 1) u_index v_index 0 (row_index + 1) yuv
        else
          yuv420Go width rest (y_index + 1) u_index v_index (column_index + 1) row_index yuv

/-- `argb_to_yuv420` (`src/convert.rs` lines 2–38): nearest-sample 4:2:0
conversion.  Allocates `vec![0; frame_size * 3 / 2]`, starts `u_index` at
`frame_size` and `v_index` at `frame_size + u_size`, and runs the chunk loop. -/
def argb_to_yuv420 (width height : Nat) (src : List Nat) : Option (List Nat) :=
  let frame_size := width * height
  let u_size := frame_size / 4
  yuv420Go width (chunks4 src) 0 frame_size (frame_size + u_size) 0 0
    (List.replicate (frame_size * 3 / 2) 0)

/-- The `get_pixel_idx` closure of `argb_to_yuv420_with_subsampling`: reads
`src[idx+2]`, `src[idx+1]`, `src[idx]` as `(r, g, b)` `i32`s; an out-of-bounds
index panics (`none`). -/
def get_pixel_idx (src : List Nat) (idx : Nat) : Option (Int × Int × Int) :=
  match src.get? (idx + 2), src.get? (idx + 1), src.get? idx with
  | some r, some g, some b => some ((r : Int), (g : Int), (b : Int))
  | _, _, _ => none

/-- The `get_pixel` closure of `argb_to_yuv420_with_subsampling`:
`get_pixel_idx((x + y * width) * 4)`. -/
def get_pixel (src : List Nat) (width x y : Nat) : Option (Int × Int × Int) :=
  get_pixel_idx src ((x + y * width) * 4)

/-- The inner (`for x in 0..width`) loop of `argb_to_yuv420_with_subsampling`
(`src/convert.rs` lines 65–91), for the fixed row `y`.  The first argument is
the number of remaining `x` iterations; the state is
`(x, y_index, u_index, v_index, yuv)` and the final state is returned. -/
def subsInner (width : Nat) (src : List Nat) (y : Nat) :
    Nat → Nat → Nat → Nat → Nat → List Nat → Option (Nat × Nat × Nat × List Nat)
  | 0, _x, y_index, u_index, v_index, yuv => some (y_index, u_index, v_index, yuv)
  | n + 1, x, y_index, u_index, v_index, yuv =>
    match get_pixel src width x y with
    | none => none
    | some pixel =>
      match writeAt yuv y_index (calc_y pixel) with
      | none => none
      | some yuv =>
        if x % 2 == 0 && y % 2 == 0 then
          match get_pixel src width (x + 1) y, get_pixel src width x (y + 1),
              get_pixel src width (x + 1) (y + 1) with
          | some p1, some p2, some p3 =>
            let u := (calc_u pixel + calc_u p1 + calc_u p2 + calc_u p3).tdiv 4
            let v := (calc_v pixel + calc_v p1 + calc_v p2 + calc_v p3).tdiv 4
            match writeAt yuv u_index (clamp u) with
            | none => none
            | some yuv =>
              match writeAt yuv v_index (clamp v) with
              | none => none
              | some yuv =>
                subsInner width src y n (x + 1) (y_index + 1) (u_index + 1) (v_index + 1) yuv
          | _, _, _ => none
        else
          subsInner width src y n (x + 1) (y_index + 1) u_index v_index yuv

/-- The outer (`for y in 0..height`) loop of
`argb_to_yuv420_with_subsampling`.  The first argument is the number of
remaining rows. -/
def subsOuter (width : Nat) (src : List Nat) :
    Nat → Nat → Nat → Nat → Nat → List Nat → Option (List Nat)
  | 0, _y, _y_index, _u_index, _v_index, yuv => some yuv
  | m + 1, y, y_index, u_index, v_index, yuv =>
    match subsInner width src y width 0 y_index u_index v_index yuv with
    | none => none
    | some (y_index, u_index, v_index, yuv) =>
      subsOuter width src m (y + 1) y_index u_index v_index yuv

/-- `argb_to_yuv420_with_subsampling` (`src/convert.rs` lines 40–95):
averaged 4:2:0 conversion over 2×2 blocks. -/
def argb_to_yuv420_with_subsampling (width height : Nat) (src : List Nat) :
    Option (List Nat) :=
  let frame_size := width * height
  let u_size := frame_size / 4
  subsOuter width src height 0 0 frame_size (frame_size + u_size)
    (List.replicate (frame_size * 3 / 2) 0)

/-- The loop of `argb_to_yuv444` (`src/convert.rs` lines 106–114): every chunk
writes a Y, U and V sample at `y_index`, `y_index + u_offset`,
`y_index + v_offset`. -/
def yuv444Go : List Chunk → Nat → Nat → Nat → List Nat → Option (List Nat)
  | [], _, _, _, yuv => some yuv
  | (b, g, r, _) :: rest, y_index, u_offset, v_offset, yuv =>
    let ri : Int := r
    let gi : Int := g
    let bi : Int := b
    match writeAt yuv y_index (clamp ((66 * ri + 129 * gi + 25 * bi + 128).tdiv 256 + 16)) with
    | none => none
    | some yuv =>
      match writeAt yuv (y_index + u_offset) (clamp ((-38 * ri - 74 * gi + 112 * bi + 128).tdiv 256 + 128)) with
      | none => none
      | some yuv =>
        match writeAt yuv (y_index + v_offset) (clamp ((112 * ri - 94 * gi - 18 * bi + 128).tdiv 256 + 128)) with
        | none => none
        | some yuv => yuv444Go rest (y_index + 1) u_offset v_offset yuv

/-- `argb_to_yuv444` (`src/convert.rs` lines 98–117): full-resolution 4:4:4
conversion.  Allocates `vec![0; frame_size * 3]` with `u_offset = frame_size`
and `v_offset = u_offset + frame_size`. -/
def argb_to_yuv444 (width height : Nat) (src : List Nat) : Option (List Nat) :=
  let frame_size := width * height
  yuv444Go (chunks4 src) 0 frame_size (frame_size + frame_size)
    (List.replicate (frame_size * 3) 0)

/-- The vpx pixel-format tags that appear in `src/main.rs`
(`vpx_encode::vpx_img_fmt`). -/
inductive vpx_img_fmt where
  | VPX_IMG_FMT_I420
  | VPX_IMG_FMT_I444
deriving DecidableEq, Repr

/-- Modelled from the spec: the vpx encoder library is an external
collaborator, and the byte size of a planar frame each pixel-format tag
designates is taken from the spec's data model — 4:2:0 (`I420`) is
`width*height*3/2` bytes, 4:4:4 (`I444`) is full-resolution Y, U and V planes,
`width*height*3` bytes. -/
def fmtFrameSize (fmt : vpx_img_fmt) (width height : Nat) : Nat :=
  match fmt with
  | vpx_img_fmt.VPX_IMG_FMT_I420 => width * height * 3 / 2
  | vpx_img_fmt.VPX_IMG_FMT_I444 => width * height * 3

/-- The conversion-and-submission part of `process_frame` (`src/main.rs`
lines 236–250): the frame is converted with `argb_to_yuv420` and the result is
submitted to the encoder together with the pixel-format tag
`VPX_IMG_FMT_I444`.  The returned pair is exactly (buffer submitted, tag
submitted); `none` models a conversion panic. -/
def process_frame (width height : Nat) (frame : List Nat) :
    Option (List Nat × vpx_img_fmt) :=
  match argb_to_yuv420 width height frame with
  | none => none
  | some yuv_frame => some (yuv_frame, vpx_img_fmt.VPX_IMG_FMT_I444)

/-- The maximum-duration stop check of the `Running` loop (`src/main.rs` line
189): `max_time.is_some_and(|d| time > d)`.  Durations are modelled as `Nat`
(nanoseconds). -/
def maxTimeExceeded (time : Nat) (max_time : Option Nat) : Bool :=
  match max_time with
  | some d => time > d
  | none => false

/-- The possible outcomes of one `capturer.frame()` call in the `Running`
loop: a frame, `io::ErrorKind::WouldBlock`, or any other (fatal) error. -/
inductive FrameResult where
  | ok (frame : List Nat)
  | wouldBlock
  | fatal
deriving DecidableEq, Repr

/-- The per-iteration inputs of the `Running` loop that come from outside the
loop body: the value the `stop` flag is observed to have, the elapsed time
`now - start`, and the result of `capturer.frame()`. -/
structure IterIn where
  stopFlag : Bool
  elapsed : Nat
  res : FrameResult
deriving DecidableEq, Repr

/-- Observable events of the pipeline, in order of occurrence: a conversion
ran, a packet was forwarded to the muxer track, the fatal-error branch printed
the error, the pacing step at the end of an iteration was reached, the
encoder's `finish` was called, and the muxer was finalized. -/
inductive Event where
  | converted
  | muxAdd (p : Nat)
  | errorReported
  | paced
  | finishCalled
  | finalized
deriving DecidableEq, Repr

/-- The shutdown sequence after the `Running` loop exits (`src/main.rs` lines
220–225): call the encoder's `finish`, forward every remaining buffered packet
to the muxer in yield order, then finalize the muxer.  Returns the final muxer
contents and the appended trace. -/
def drainSeq {E : Type} (finish : E → List Nat) (e : E) (mux : List Nat)
    (tr : List Event) : List Nat × List Event :=
  let rem := finish e
  (mux ++ rem, tr ++ Event.finishCalled :: rem.map Event.muxAdd ++ [Event.finalized])

/-- The `Running` loop of `main` (`src/main.rs` lines 185–226) over an
explicit script of per-iteration inputs, against an abstract encoder
(`encode` submits a timestamped buffer plus pixel-format tag and yields the
packets that are ready; `finish` yields all remaining buffered packets).
Each iteration checks the stop flag, then the maximum-duration bound, then
matches on the frame result: a frame is converted and submitted via
`process_frame` and every yielded packet is forwarded; `WouldBlock` does
nothing; any other error prints it and breaks.  Leaving the loop (stop flag,
exhausted script, exceeded bound, or fatal error) runs the drain sequence.
`none` models a conversion panic aborting the process. -/
def runPipeline {E : Type} (encode : E → Nat → List Nat → vpx_img_fmt → E × List Nat)
    (finish : E → List Nat) (width height : Nat) (max_time : Option Nat) :
    List IterIn → E → List Nat → List Event → Option (List Nat × List Event)
  | [], e, mux, tr => some (drainSeq finish e mux tr)
  | it :: rest, e, mux, tr =>
    if it.stopFlag then some (drainSeq finish e mux tr)
    else if maxTimeExceeded it.elapsed max_time then some (drainSeq finish e mux tr)
    else
      match it.res with
      | FrameResult.ok frame =>
        match process_frame width height frame with
        | none => none
        | some (yuv, fmt) =>
          match encode e it.elapsed yuv fmt with
          | (e, pkts) =>
            runPipeline encode finish width height max_time rest e (mux ++ pkts)
              (tr ++ Event.converted :: pkts.map Event.muxAdd ++ [Event.paced])
      | FrameResult.wouldBlock =>
        runPipeline encode finish width height max_time rest e mux (tr ++ [Event.paced])
      | FrameResult.fatal =>
        some (drainSeq finish e mux (tr ++ [Event.errorReported]))

/-! ## Specification-side definitions

Positional descriptions of the converters' outputs, used to state and prove
the characterization lemmas.  `pix src p` is the `(r, g, b)` triple of the
`p`-th pixel of the frame buffer (bytes `p*4 + 2`, `p*4 + 1`, `p*4`), matching
both the `array_chunks` destructuring `[b, g, r, _]` and the `get_pixel`
closure; the alpha byte `p*4 + 3` is never touched. -/

/-- The `(r, g, b)` channels (as `i32`s) of pixel `p` of a BGRA frame
buffer. -/
def pix (src : List Nat) (p : Nat) : Int × Int × Int :=
  ((src.getD (p * 4 + 2) 0 : Int), (src.getD (p * 4 + 1) 0 : Int),
    (src.getD (p * 4) 0 : Int))

/-- `mapseg f k n = [f k, f (k+1), ..., f (k+n-1)]`. -/
def mapseg (f : Nat → Nat) : Nat → Nat → List Nat
  | _, 0 => []
  | k, n + 1 => f k :: mapseg f (k + 1) n

/-- Flat pixel position `k` is a chroma anchor: its column `k % w` and row
`k / w` are both even. -/
def isAnchor (w k : Nat) : Bool := (k % w) % 2 == 0 && (k / w) % 2 == 0

/-- The anchor positions among the flat positions `[k, k+n)`, in increasing
(row-major) order. -/
def anchors (w : Nat) : Nat → Nat → List Nat
  | 0, _ => []
  | n + 1, k =>
    if isAnchor w k then k :: anchors w n (k + 1) else anchors w n (k + 1)

/-- The averaged (pre-clamp) U sample of the 2×2 block anchored at flat
position `p`: the truncating mean of the four per-pixel `calc_u` values of
the block. -/
def avg_u (src : List Nat) (w p : Nat) : Int :=
  (calc_u (pix src p) + calc_u (pix src (p + 1)) + calc_u (pix src (p + w)) +
    calc_u (pix src (p + w + 1))).tdiv 4

/-- The averaged (pre-clamp) V sample of the 2×2 block anchored at flat
position `p`. -/
def avg_v (src : List Nat) (w p : Nat) : Int :=
  (calc_v (pix src p) + calc_v (pix src (p + 1)) + calc_v (pix src (p + w)) +
    calc_v (pix src (p + w + 1))).tdiv 4

/-- The chunk list of `src` described positionally: `chunksFrom src k n` is
the list of the `n` BGRA chunks starting at pixel position `k` (out-of-range
bytes default to `0`). -/
def chunksFrom (src : List Nat) : Nat → Nat → List Chunk
  | _, 0 => []
  | k, n + 1 =>
    (src.getD (k * 4) 0, src.getD (k * 4 + 1) 0, src.getD (k * 4 + 2) 0,
      src.getD (k * 4 + 3) 0) :: chunksFrom src (k + 1) n

/-! ## List infrastructure lemmas -/

theorem set_split (P : List Nat) (x : Nat) (Q : List Nat) (v : Nat) :
    (P ++ x :: Q).set P.length v = P ++ v :: Q := by
  induction P with
  | nil => simp
  | cons p P ih => simp [ih]

theorem writeAt_split (P : List Nat) (x : Nat) (Q : List Nat) (n v : Nat)
    (h : P.length = n) : writeAt (P ++ x :: Q) n v = some (P ++ v :: Q) := by
  subst h
  rw [writeAt, if_pos (by simp), set_split]

theorem getq_append_left {α : Type} (l₁ l₂ : List α) (i : Nat)
    (h : i < l₁.length) : (l₁ ++ l₂).get? i = l₁.get? i := by
  simp [List.get?_eq_getElem?, List.getElem?_append, h]

theorem getq_append_right {α : Type} (l₁ l₂ : List α) (i : Nat)
    (h : l₁.length ≤ i) : (l₁ ++ l₂).get? i = l₂.get? (i - l₁.length) := by
  simp [List.get?_eq_getElem?, List.getElem?_append]
  omega

theorem mapseg_length (f : Nat → Nat) : ∀ n k, (mapseg f k n).length = n := by
  intro n
  induction n with
  | zero => intro k; rfl
  | succ n ih => intro k; simp [mapseg, ih]

theorem mapseg_append (f : Nat → Nat) :
    ∀ m n k, mapseg f k (m + n) = mapseg f k m ++ mapseg f (k + m) n := by
  intro m
  induction m with
  | zero => intro n k; simp [mapseg]
  | succ m ih =>
    intro n k
    have : m + 1 + n = (m + n) + 1 := by omega
    rw [this, mapseg, mapseg, ih]
    simp [Nat.add_assoc, Nat.add_comm 1 m]

theorem mapseg_get? (f : Nat → Nat) :
    ∀ n k j, j < n → (mapseg f k n).get? j = some (f (k + j)) := by
  intro n
  induction n with
  | zero => omega
  | succ n ih =>
    intro k j hj
    cases j with
    | zero => simp [mapseg]
    | succ j =>
      rw [mapseg]
      simp only [List.get?]
      have hkj : k + 1 + j = k + (j + 1) := by omega
      rw [ih (k + 1) j (by omega), hkj]

theorem mapseg_congr (f g : Nat → Nat) :
    ∀ n k, (∀ p, k ≤ p → p < k + n → f p = g p) →
      mapseg f k n = mapseg g k n := by
  intro n
  induction n with
  | zero => intro k _; rfl
  | succ n ih =>
    intro k h
    rw [mapseg, mapseg, h k (le_refl k) (by omega), ih (k + 1) (by intro p h1 h2; exact h p (by omega) (by omega))]

/-! ## Column/row counter arithmetic

The flat-index loop of `argb_to_yuv420` tracks `column_index = k % w` and
`row_index = k / w`; these lemmas show the source's increment logic preserves
that relation. -/

theorem colRow_succ_wrap (w k : Nat) (h : k % w + 1 = w) :
    (k + 1) % w = 0 ∧ (k + 1) / w = k / w + 1 := by
  have hw : 0 < w := by omega
  have h2 := Nat.div_add_mod k w
  have h1 : k + 1 = (k / w + 1) * w := by
    conv_lhs => rw [← h2]
    rw [Nat.add_assoc, h]
    ring
  constructor
  · rw [h1, Nat.mul_mod_left]
  · rw [h1, Nat.mul_div_cancel _ hw]

theorem colRow_succ_nowrap (w k : Nat) (h : k % w + 1 ≠ w) :
    (k + 1) % w = k % w + 1 ∧ (k + 1) / w = k / w := by
  rcases Nat.eq_zero_or_pos w with hw | hw
  · subst hw; simp
  · have hlt : k % w + 1 < w := by
      have := Nat.mod_lt k hw
      omega
    have h2 := Nat.div_add_mod k w
    have h1 : k + 1 = (k % w + 1) + k / w * w := by
      conv_lhs => rw [← h2]
      ring
    constructor
    · rw [h1, Nat.add_mul_mod_self_right, Nat.mod_eq_of_lt hlt]
    · rw [h1, Nat.add_mul_div_right _ _ hw, Nat.div_eq_of_lt hlt, Nat.zero_add]

theorem colRowStep {α : Sort _} (w k : Nat) (f : Nat → Nat → α) :
    (if k % w + 1 == w then f 0 (k / w + 1) else f (k % w + 1) (k / w)) =
      f ((k + 1) % w) ((k + 1) / w) := by
  by_cases h : k % w + 1 = w
  · obtain ⟨h1, h2⟩ := colRow_succ_wrap w k h
    simp [h, h1, h2]
  · obtain ⟨h1, h2⟩ := colRow_succ_nowrap w k h
    simp [h, h1, h2]

theorem pos_mod (w r c : Nat) (hc : c < w) : (c + r * w) % w = c := by
  rw [Nat.add_mul_mod_self_right, Nat.mod_eq_of_lt hc]

theorem pos_div (w r c : Nat) (hc : c < w) : (c + r * w) / w = r := by
  rw [Nat.add_mul_div_right _ _ (by omega : 0 < w), Nat.div_eq_of_lt hc,
    Nat.zero_add]

theorem isAnchor_pos (w r c : Nat) (hc : c < w) :
    isAnchor w (c + r * w) = ((c % 2 == 0) && (r % 2 == 0)) := by
  unfold isAnchor
  rw [pos_mod w r c hc, pos_div w r c hc]

/-! ## Anchor-position counting -/

theorem anchors_append (w : Nat) :
    ∀ m n k, anchors w (m + n) k = anchors w m k ++ anchors w n (k + m) := by
  intro m
  induction m with
  | zero => intro n k; simp [anchors]
  | succ m ih =>
    intro n k
    have hmn : m + 1 + n = (m + n) + 1 := by omega
    have hadd : k + 1 + m = k + (m + 1) := by omega
    rw [hmn, anchors, anchors]
    by_cases h : isAnchor w k
    · rw [if_pos h, if_pos h, ih, hadd, List.cons_append]
    · rw [if_neg h, if_neg h, ih, hadd]

theorem anchors_mem (w : Nat) :
    ∀ n k p, p ∈ anchors w n k → k ≤ p ∧ p < k + n ∧ isAnchor w p = true := by
  intro n
  induction n with
  | zero => intro k p hp; simp [anchors] at hp
  | succ n ih =>
    intro k p hp
    rw [anchors] at hp
    by_cases h : isAnchor w k
    · rw [if_pos h] at hp
      rcases List.mem_cons.mp hp with rfl | hp'
      · exact ⟨le_refl _, by omega, h⟩
      · obtain ⟨h1, h2, h3⟩ := ih (k + 1) p hp'
        exact ⟨by omega, by omega, h3⟩
    · rw [if_neg h] at hp
      obtain ⟨h1, h2, h3⟩ := ih (k + 1) p hp
      exact ⟨by omega, by omega, h3⟩

theorem anchors_get (w : Nat) :
    ∀ j n k, j < n → isAnchor w (k + j) = true →
      (anchors w n k).get? (anchors w j k).length = some (k + j) := by
  intro j
  induction j with
  | zero =>
    intro n k hn ha
    cases n with
    | zero => omega
    | succ n =>
      simp only [anchors]
      rw [if_pos (by simpa using ha)]
      simp
  | succ j ih =>
    intro n k hn ha
    cases n with
    | zero => omega
    | succ n =>
      have ha' : isAnchor w (k + 1 + j) = true := by
        have hx : k + 1 + j = k + (j + 1) := by omega
        rw [hx]; exact ha
      simp only [anchors]
      by_cases h : isAnchor w k = true
      · rw [if_pos h, if_pos h]
        simp only [List.length_cons, List.get?_cons_succ]
        rw [ih n (k + 1) (by omega) ha']
        congr 1
        omega
      · rw [if_neg h, if_neg h, ih n (k + 1) (by omega) ha']
        congr 1
        omega

theorem anchors_len_one (w k : Nat) :
    (anchors w 1 k).length = if isAnchor w k then 1 else 0 := by
  by_cases h : isAnchor w k = true <;> simp [anchors, h]

theorem anchors_row_len (w W : Nat) (hw : w = 2 * W) (r : Nat) :
    ∀ c, c ≤ w → (anchors w c (r * w)).length =
      if r % 2 = 0 then (c + 1) / 2 else 0 := by
  intro c
  induction c with
  | zero => intro _; simp [anchors]
  | succ c ih =>
    intro hc
    rw [anchors_append w c 1 (r * w), List.length_append, ih (by omega),
      anchors_len_one]
    have hcw : c < w := by omega
    have hcomm : r * w + c = c + r * w := by omega
    rw [hcomm, isAnchor_pos w r c hcw]
    by_cases hr : r % 2 = 0 <;> by_cases hcp : c % 2 = 0 <;>
      simp [hr, hcp] <;> omega

theorem anchors_rows_len (w W : Nat) (hw : w = 2 * W) :
    ∀ r, (anchors w (r * w) 0).length = ((r + 1) / 2) * W := by
  intro r
  induction r with
  | zero => simp [anchors]
  | succ r ih =>
    have h1 : (r + 1) * w = r * w + w := by ring
    rw [h1, anchors_append w (r * w) w 0, List.length_append, ih, Nat.zero_add,
      anchors_row_len w W hw r w (le_refl w)]
    subst hw
    by_cases hr : r % 2 = 0
    · rw [if_pos hr]
      have h2 : (2 * W + 1) / 2 = W := by omega
      have h3 : (r + 1) / 2 = r / 2 := by omega
      have h4 : (r + 1 + 1) / 2 = r / 2 + 1 := by omega
      rw [h2, h3, h4]
      ring
    · rw [if_neg hr]
      have h3 : (r + 1 + 1) / 2 = (r + 1) / 2 := by omega
      rw [h3, Nat.add_zero]

theorem anchors_ordinal (w W : Nat) (hw : w = 2 * W) (r c : Nat)
    (hr : r % 2 = 0) (hc : c % 2 = 0) (hcw : c < w) :
    (anchors w (r * w + c) 0).length = r / 2 * W + c / 2 := by
  rw [anchors_append w (r * w) c 0, List.length_append,
    anchors_rows_len w W hw r, Nat.zero_add,
    anchors_row_len w W hw r c (by omega), if_pos hr]
  have h1 : (r + 1) / 2 = r / 2 := by omega
  have h2 : (c + 1) / 2 = c / 2 := by omega
  rw [h1, h2]

theorem anchors_total (w h W H : Nat) (hw : w = 2 * W) (hh : h = 2 * H) :
    (anchors w (w * h) 0).length = W * H := by
  have h1 : w * h = h * w := by ring
  rw [h1, anchors_rows_len w W hw h]
  subst hh
  have h2 : (2 * H + 1) / 2 = H := by omega
  rw [h2]
  ring

theorem anchors_all_isAnchor (w n k : Nat) :
    (anchors w n k).all (fun p => isAnchor w p) = true := by
  rw [List.all_eq_true]
  intro p hp
  exact (anchors_mem w n k p hp).2.2

/-! ## Bridging `chunks4` to the positional chunk list -/

theorem getD_cons4 (b g r a : Nat) (rest : List Nat) (m d : Nat) :
    (b :: g :: r :: a :: rest).getD (m + 4) d = rest.getD m d := by
  have h4 : m + 4 = m + 1 + 1 + 1 + 1 := by ring
  rw [h4, List.getD_cons_succ, List.getD_cons_succ, List.getD_cons_succ,
    List.getD_cons_succ]

theorem chunksFrom_shift (b g r a : Nat) (rest : List Nat) :
    ∀ n k, chunksFrom (b :: g :: r :: a :: rest) (k + 1) n =
      chunksFrom rest k n := by
  intro n
  induction n with
  | zero => intro k; rfl
  | succ n ih =>
    intro k
    rw [chunksFrom, chunksFrom, ih]
    have e3 : (k + 1) * 4 + 3 = k * 4 + 3 + 4 := by ring
    have e2 : (k + 1) * 4 + 2 = k * 4 + 2 + 4 := by ring
    have e1 : (k + 1) * 4 + 1 = k * 4 + 1 + 4 := by ring
    have e0 : (k + 1) * 4 = k * 4 + 4 := by ring
    rw [e3, e2, e1, e0, getD_cons4, getD_cons4, getD_cons4, getD_cons4]

theorem chunks4_eq : (src : List Nat) →
    chunks4 src = chunksFrom src 0 (src.length / 4)
  | [] => rfl
  | [_] => by simp [chunks4, chunksFrom]
  | [_, _] => by simp [chunks4, chunksFrom]
  | [_, _, _] => by simp [chunks4, chunksFrom]
  | b :: g :: r :: a :: rest => by
    have ih := chunks4_eq rest
    rw [chunks4]
    have hl : (b :: g :: r :: a :: rest).length / 4 = rest.length / 4 + 1 := by
      simp
      omega
    rw [hl, chunksFrom, ih, chunksFrom_shift]
    simp

theorem yuv420Go_cons_anchor (w : Nat) (b g r al : Nat) (rest : List Chunk)
    (k uI vI : Nat) (yuv yuv1 yuv2 yuv3 : List Nat)
    (hcol : (k % w) % 2 = 0) (hrow : (k / w) % 2 = 0)
    (h1 : writeAt yuv k (clamp ((66 * (r : Int) + 129 * (g : Int) + 25 * (b : Int) + 128).tdiv 256 + 16)) = some yuv1)
    (h2 : writeAt yuv1 uI (clamp ((-38 * (r : Int) - 74 * (g : Int) + 112 * (b : Int) + 128).tdiv 256 + 128)) = some yuv2)
    (h3 : writeAt yuv2 vI (clamp ((112 * (r : Int) - 94 * (g : Int) - 18 * (b : Int) + 128).tdiv 256 + 128)) = some yuv3) :
    yuv420Go w ((b, g, r, al) :: rest) k uI vI (k % w) (k / w) yuv =
      yuv420Go w rest (k + 1) (uI + 1) (vI + 1) ((k + 1) % w) ((k + 1) / w) yuv3 := by
  rw [yuv420Go]
  simp only [h1, h2, h3, hcol, hrow]
  simp only [beq_self_eq_true, Bool.and_self, if_true]
  exact colRowStep w k (fun c r' => yuv420Go w rest (k + 1) (uI + 1) (vI + 1) c r' yuv3)

theorem yuv420Go_cons_plain (w : Nat) (b g r al : Nat) (rest : List Chunk)
    (k uI vI : Nat) (yuv yuv1 : List Nat)
    (hna : (((k % w) % 2 == 0) && ((k / w) % 2 == 0)) = false)
    (h1 : writeAt yuv k (clamp ((66 * (r : Int) + 129 * (g : Int) + 25 * (b : Int) + 128).tdiv 256 + 16)) = some yuv1) :
    yuv420Go w ((b, g, r, al) :: rest) k uI vI (k % w) (k / w) yuv =
      yuv420Go w rest (k + 1) uI vI ((k + 1) % w) ((k + 1) / w) yuv1 := by
  rw [yuv420Go]
  simp only [h1, hna, Bool.false_eq_true, if_false]
  exact colRowStep w k (fun c r' => yuv420Go w rest (k + 1) uI vI c r' yuv1)

theorem writeAt_block (P Q : List Nat) (m n v : Nat)
    (hP : P.length = n) (hm : 0 < m) :
    writeAt (P ++ (List.replicate m 0 ++ Q)) n v =
      some (P ++ (v :: (List.replicate (m - 1) 0 ++ Q))) := by
  obtain ⟨m', rfl⟩ : ∃ m', m = m' + 1 := ⟨m - 1, by omega⟩
  rw [Nat.add_sub_cancel, List.replicate_succ, List.cons_append,
    writeAt_split P 0 _ n v hP]

theorem yuv420Go_spec (src : List Nat) (w fs us : Nat) :
    ∀ (n k a : Nat) (A B C : List Nat),
      A.length = k → B.length = a → C.length = a →
      k + n ≤ fs → a + (anchors w n k).length ≤ us →
      yuv420Go w (chunksFrom src k n) k (fs + a) (fs + us + a) (k % w) (k / w)
        (A ++ (List.replicate (fs - k) 0 ++ (B ++ (List.replicate (us - a) 0 ++
          (C ++ List.replicate (us - a) 0))))) =
      some (A ++ (mapseg (fun p => calc_y (pix src p)) k n ++
        (List.replicate (fs - (k + n)) 0 ++
        (B ++ ((anchors w n k).map (fun p => clamp (calc_u (pix src p))) ++
        (List.replicate (us - (a + (anchors w n k).length)) 0 ++
        (C ++ ((anchors w n k).map (fun p => clamp (calc_v (pix src p))) ++
        List.replicate (us - (a + (anchors w n k).length)) 0)))))))) := by
  intro n
  induction n with
  | zero =>
    intro k a A B C hA hB hC hk ha
    simp [chunksFrom, yuv420Go, mapseg, anchors]
  | succ n ih =>
    intro k a A B C hA hB hC hk ha
    rw [chunksFrom]
    have hfk : 0 < fs - k := by omega
    have h1 := writeAt_block A
      (B ++ (List.replicate (us - a) 0 ++ (C ++ List.replicate (us - a) 0)))
      (fs - k) k (calc_y (pix src k)) hA hfk
    by_cases hanch : (((k % w) % 2 == 0) && ((k / w) % 2 == 0)) = true
    · -- anchor pixel: chroma writes happen
      have hiso : isAnchor w k = true := hanch
      have hcolrow : (k % w) % 2 = 0 ∧ (k / w) % 2 = 0 := by
        simpa [Bool.and_eq_true, beq_iff_eq] using hanch
      have hlen : (anchors w (n + 1) k).length = (anchors w n (k + 1)).length + 1 := by
        rw [anchors, if_pos hiso, List.length_cons]
      have hau : a < us := by omega
      have hP2 : (A ++ (calc_y (pix src k) :: (List.replicate (fs - k - 1) 0 ++ B))).length
          = fs + a := by
        simp [hA, hB]
        omega
      have h2 := writeAt_block
        (A ++ (calc_y (pix src k) :: (List.replicate (fs - k - 1) 0 ++ B)))
        (C ++ List.replicate (us - a) 0) (us - a) (fs + a)
        (clamp (calc_u (pix src k))) hP2 (by omega)
      have hP3 : ((A ++ (calc_y (pix src k) :: (List.replicate (fs - k - 1) 0 ++ B))) ++
          (clamp (calc_u (pix src k)) :: (List.replicate (us - a - 1) 0 ++ C))).length
          = fs + us + a := by
        simp [hA, hB, hC]
        omega
      have h3 := writeAt_block
        ((A ++ (calc_y (pix src k) :: (List.replicate (fs - k - 1) 0 ++ B))) ++
          (clamp (calc_u (pix src k)) :: (List.replicate (us - a - 1) 0 ++ C)))
        [] (us - a) (fs + us + a) (clamp (calc_v (pix src k))) hP3 (by omega)
      -- reshape the buffers h2 and h3 act on so they match h1's output
      have hsh2 : A ++ (calc_y (pix src k) :: (List.replicate (fs - k - 1) 0 ++
            (B ++ (List.replicate (us - a) 0 ++ (C ++ List.replicate (us - a) 0))))) =
          (A ++ (calc_y (pix src k) :: (List.replicate (fs - k - 1) 0 ++ B))) ++
            (List.replicate (us - a) 0 ++ (C ++ List.replicate (us - a) 0)) := by
        simp [List.append_assoc]
      have hsh3 : (A ++ (calc_y (pix src k) :: (List.replicate (fs - k - 1) 0 ++ B))) ++
            (clamp (calc_u (pix src k)) :: (List.replicate (us - a - 1) 0 ++
              (C ++ List.replicate (us - a) 0))) =
          ((A ++ (calc_y (pix src k) :: (List.replicate (fs - k - 1) 0 ++ B))) ++
            (clamp (calc_u (pix src k)) :: (List.replicate (us - a - 1) 0 ++ C))) ++
            (List.replicate (us - a) 0 ++ []) := by
              simp [List.append_assoc]
      rw [hsh2] at h1
      rw [hsh3] at h2
      rw [yuv420Go_cons_anchor _ _ _ _ _ _ _ _ _ _ _ _ _ hcolrow.1 hcolrow.2 h1 h2 h3]
      have e1 : fs + a + 1 = fs + (a + 1) := by omega
      have e2 : fs + us + a + 1 = fs + us + (a + 1) := by omega
      rw [e1, e2]
      have hbuf : ((A ++ (calc_y (pix src k) :: (List.replicate (fs - k - 1) 0 ++ B))) ++
            (clamp (calc_u (pix src k)) :: (List.replicate (us - a - 1) 0 ++ C))) ++
            (clamp (calc_v (pix src k)) :: (List.replicate (us - a - 1) 0 ++ [])) =
          (A ++ [calc_y (pix src k)]) ++ (List.replicate (fs - (k + 1)) 0 ++
            ((B ++ [clamp (calc_u (pix src k))]) ++ (List.replicate (us - (a + 1)) 0 ++
            ((C ++ [clamp (calc_v (pix src k))]) ++ List.replicate (us - (a + 1)) 0)))) := by
        have eA : fs - k - 1 = fs - (k + 1) := by omega
        have eB : us - a - 1 = us - (a + 1) := by omega
        rw [eA, eB]
        simp [List.append_assoc]
      rw [hbuf]
      rw [ih (k + 1) (a + 1) (A ++ [calc_y (pix src k)]) (B ++ [clamp (calc_u (pix src k))])
        (C ++ [clamp (calc_v (pix src k))]) (by simp [hA]) (by simp [hB]) (by simp [hC])
        (by omega) (by rw [hlen] at ha; omega)]
      rw [anchors, if_pos hiso, mapseg]
      have e3 : fs - (k + (n + 1)) = fs - (k + 1 + n) := by omega
      have e4 : us - (a + ((anchors w n (k + 1)).length + 1)) =
          us - (a + 1 + (anchors w n (k + 1)).length) := by omega
      simp only [List.length_cons, List.map_cons, e3, e4]
      simp [List.append_assoc]
    · have hna : (((k % w) % 2 == 0) && ((k / w) % 2 == 0)) = false := by
        rw [Bool.not_eq_true] at hanch
        exact hanch
      have hiso : ¬ isAnchor w k = true := by
        show ¬ (((k % w) % 2 == 0) && ((k / w) % 2 == 0)) = true
        rw [hna]
        simp
      rw [yuv420Go_cons_plain _ _ _ _ _ _ _ _ _ _ _ hna h1]
      have hbuf : A ++ (calc_y (pix src k) :: (List.replicate (fs - k - 1) 0 ++
            (B ++ (List.replicate (us - a) 0 ++ (C ++ List.replicate (us - a) 0))))) =
          (A ++ [calc_y (pix src k)]) ++ (List.replicate (fs - (k + 1)) 0 ++
            (B ++ (List.replicate (us - a) 0 ++ (C ++ List.replicate (us - a) 0)))) := by
        have eA : fs - k - 1 = fs - (k + 1) := by omega
        rw [eA]
        simp [List.append_assoc]
      rw [hbuf]
      rw [ih (k + 1) a (A ++ [calc_y (pix src k)]) B C (by simp [hA]) hB hC (by omega)
        (by rw [anchors, if_neg hiso] at ha; exact ha)]
      rw [anchors, if_neg hiso, mapseg]
      have e3 : fs - (k + (n + 1)) = fs - (k + 1 + n) := by omega
      simp only [e3]
      simp [List.append_assoc]

/-- Characterization of `argb_to_yuv420` on a well-formed even-dimension
frame: the result is the Y plane followed by the U and V planes, each chroma
plane holding one sample per anchor position in row-major order, computed from
the anchor pixel alone. -/
theorem argb_to_yuv420_char (w h W H : Nat) (hw : w = 2 * W) (hh : h = 2 * H)
    (src : List Nat) (hs : src.length = w * h * 4) :
    argb_to_yuv420 w h src =
      some (mapseg (fun p => calc_y (pix src p)) 0 (w * h) ++
        ((anchors w (w * h) 0).map (fun p => clamp (calc_u (pix src p))) ++
          (anchors w (w * h) 0).map (fun p => clamp (calc_v (pix src p))))) := by
  have hfs4 : w * h = 4 * (W * H) := by subst hw; subst hh; ring
  have hus : w * h / 4 = W * H := by
    rw [hfs4, Nat.mul_div_cancel_left _ (by norm_num)]
  have h32 : w * h * 3 / 2 = w * h + (W * H + W * H) := by
    rw [hfs4]
    omega
  have hlen4 : src.length / 4 = w * h := by
    rw [hs, Nat.mul_div_cancel _ (by norm_num)]
  have htot : (anchors w (w * h) 0).length = W * H := anchors_total w h W H hw hh
  have spec := yuv420Go_spec src w (w * h) (W * H) (w * h) 0 0 [] [] [] rfl rfl rfl
    (by omega) (by rw [htot]; omega)
  simp only [Nat.zero_mod, Nat.zero_div, Nat.add_zero, Nat.sub_zero, Nat.zero_add,
    List.nil_append, htot, Nat.sub_self, List.replicate_zero, List.append_nil] at spec
  simp only [argb_to_yuv420]
  rw [chunks4_eq, hlen4, hus, h32, List.replicate_add, List.replicate_add]
  exact spec

theorem yuv444Go_cons (b g r al : Nat) (rest : List Chunk) (k uOff vOff : Nat)
    (yuv yuv1 yuv2 yuv3 : List Nat)
    (h1 : writeAt yuv k (clamp ((66 * (r : Int) + 129 * (g : Int) + 25 * (b : Int) + 128).tdiv 256 + 16)) = some yuv1)
    (h2 : writeAt yuv1 (k + uOff) (clamp ((-38 * (r : Int) - 74 * (g : Int) + 112 * (b : Int) + 128).tdiv 256 + 128)) = some yuv2)
    (h3 : writeAt yuv2 (k + vOff) (clamp ((112 * (r : Int) - 94 * (g : Int) - 18 * (b : Int) + 128).tdiv 256 + 128)) = some yuv3) :
    yuv444Go ((b, g, r, al) :: rest) k uOff vOff yuv =
      yuv444Go rest (k + 1) uOff vOff yuv3 := by
  rw [yuv444Go]
  simp only [h1, h2, h3]

theorem yuv444Go_spec (src : List Nat) (fs : Nat) :
    ∀ (n k : Nat) (A B C : List Nat),
      A.length = k → B.length = k → C.length = k →
      k + n ≤ fs →
      yuv444Go (chunksFrom src k n) k fs (fs + fs)
        (A ++ (List.replicate (fs - k) 0 ++ (B ++ (List.replicate (fs - k) 0 ++
          (C ++ List.replicate (fs - k) 0))))) =
      some (A ++ (mapseg (fun p => calc_y (pix src p)) k n ++
        (List.replicate (fs - (k + n)) 0 ++
        (B ++ (mapseg (fun p => clamp (calc_u (pix src p))) k n ++
        (List.replicate (fs - (k + n)) 0 ++
        (C ++ (mapseg (fun p => clamp (calc_v (pix src p))) k n ++
        List.replicate (fs - (k + n)) 0)))))))) := by
  intro n
  induction n with
  | zero =>
    intro k A B C hA hB hC hk
    simp [chunksFrom, yuv444Go, mapseg]
  | succ n ih =>
    intro k A B C hA hB hC hk
    rw [chunksFrom]
    have hfk : 0 < fs - k := by omega
    have h1 := writeAt_block A
      (B ++ (List.replicate (fs - k) 0 ++ (C ++ List.replicate (fs - k) 0)))
      (fs - k) k (calc_y (pix src k)) hA hfk
    have hP2 : (A ++ (calc_y (pix src k) :: (List.replicate (fs - k - 1) 0 ++ B))).length
        = k + fs := by
      simp [hA, hB]
      omega
    have h2 := writeAt_block
      (A ++ (calc_y (pix src k) :: (List.replicate (fs - k - 1) 0 ++ B)))
      (C ++ List.replicate (fs - k) 0) (fs - k) (k + fs)
      (clamp (calc_u (pix src k))) hP2 hfk
    have hP3 : ((A ++ (calc_y (pix src k) :: (List.replicate (fs - k - 1) 0 ++ B))) ++
        (clamp (calc_u (pix src k)) :: (List.replicate (fs - k - 1) 0 ++ C))).length
        = k + (fs + fs) := by
      simp [hA, hB, hC]
      omega
    have h3 := writeAt_block
      ((A ++ (calc_y (pix src k) :: (List.replicate (fs - k - 1) 0 ++ B))) ++
        (clamp (calc_u (pix src k)) :: (List.replicate (fs - k - 1) 0 ++ C)))
      [] (fs - k) (k + (fs + fs)) (clamp (calc_v (pix src k))) hP3 hfk
    have hsh2 : A ++ (calc_y (pix src k) :: (List.replicate (fs - k - 1) 0 ++
          (B ++ (List.replicate (fs - k) 0 ++ (C ++ List.replicate (fs - k) 0))))) =
        (A ++ (calc_y (pix src k) :: (List.replicate (fs - k - 1) 0 ++ B))) ++
          (List.replicate (fs - k) 0 ++ (C ++ List.replicate (fs - k) 0)) := by
      simp [List.append_assoc]
    have hsh3 : (A ++ (calc_y (pix src k) :: (List.replicate (fs - k - 1) 0 ++ B))) ++
          (clamp (calc_u (pix src k)) :: (List.replicate (fs - k - 1) 0 ++
            (C ++ List.replicate (fs - k) 0))) =
        ((A ++ (calc_y (pix src k) :: (List.replicate (fs - k - 1) 0 ++ B))) ++
          (clamp (calc_u (pix src k)) :: (List.replicate (fs - k - 1) 0 ++ C))) ++
          (List.replicate (fs - k) 0 ++ []) := by
      simp [List.append_assoc]
    rw [hsh2] at h1
    rw [hsh3] at h2
    rw [yuv444Go_cons _ _ _ _ _ _ _ _ _ _ _ _ h1 h2 h3]
    have hbuf : ((A ++ (calc_y (pix src k) :: (List.replicate (fs - k - 1) 0 ++ B))) ++
          (clamp (calc_u (pix src k)) :: (List.replicate (fs - k - 1) 0 ++ C))) ++
          (clamp (calc_v (pix src k)) :: (List.replicate (fs - k - 1) 0 ++ [])) =
        (A ++ [calc_y (pix src k)]) ++ (List.replicate (fs - (k + 1)) 0 ++
          ((B ++ [clamp (calc_u (pix src k))]) ++ (List.replicate (fs - (k + 1)) 0 ++
          ((C ++ [clamp (calc_v (pix src k))]) ++ List.replicate (fs - (k + 1)) 0)))) := by
      have eA : fs - k - 1 = fs - (k + 1) := by omega
      rw [eA]
      simp [List.append_assoc]
    rw [hbuf]
    rw [ih (k + 1) (A ++ [calc_y (pix src k)]) (B ++ [clamp (calc_u (pix src k))])
      (C ++ [clamp (calc_v (pix src k))]) (by simp [hA]) (by simp [hB]) (by simp [hC])
      (by omega)]
    rw [mapseg, mapseg, mapseg]
    have e3 : fs - (k + (n + 1)) = fs - (k + 1 + n) := by omega
    simp only [e3]
    simp [List.append_assoc]

/-- Characterization of `argb_to_yuv444` on a well-formed frame of any
dimensions: full-resolution Y, U and V planes in order. -/
theorem argb_to_yuv444_char (w h : Nat) (src : List Nat)
    (hs : src.length = w * h * 4) :
    argb_to_yuv444 w h src =
      some (mapseg (fun p => calc_y (pix src p)) 0 (w * h) ++
        (mapseg (fun p => clamp (calc_u (pix src p))) 0 (w * h) ++
          mapseg (fun p => clamp (calc_v (pix src p))) 0 (w * h))) := by
  have hlen4 : src.length / 4 = w * h := by
    rw [hs, Nat.mul_div_cancel _ (by norm_num)]
  have h3 : w * h * 3 = w * h + (w * h + w * h) := by ring
  have spec := yuv444Go_spec src (w * h) (w * h) 0 [] [] [] rfl rfl rfl (by omega)
  simp only [Nat.add_zero, Nat.sub_zero, Nat.zero_add, List.nil_append,
    Nat.sub_self, List.replicate_zero, List.append_nil] at spec
  simp only [argb_to_yuv444]
  rw [chunks4_eq, hlen4, h3, List.replicate_add, List.replicate_add]
  exact spec

theorem get?_eq_getD (l : List Nat) (i : Nat) (h : i < l.length) :
    l.get? i = some (l.getD i 0) := by
  rw [List.get?_eq_getElem?, List.getElem?_eq_getElem h, List.getD_eq_getElem?_getD,
    List.getElem?_eq_getElem h]
  rfl

theorem pos_lt_fs (w h x y : Nat) (hx : x < w) (hy : y < h) :
    x + y * w < w * h := by
  have h1 : y + 1 ≤ h := hy
  have h2 : (y + 1) * w ≤ h * w := Nat.mul_le_mul_right w h1
  have h3 : (y + 1) * w = y * w + w := by ring
  have h4 : h * w = w * h := by ring
  omega

theorem get_pixel_some (src : List Nat) (w x y : Nat)
    (hlt : (x + y * w) * 4 + 4 ≤ src.length) :
    get_pixel src w x y = some (pix src (x + y * w)) := by
  unfold get_pixel get_pixel_idx pix
  rw [get?_eq_getD src ((x + y * w) * 4 + 2) (by omega),
    get?_eq_getD src ((x + y * w) * 4 + 1) (by omega),
    get?_eq_getD src ((x + y * w) * 4) (by omega)]

theorem subsInner_cons_anchor (w : Nat) (src : List Nat) (y n x : Nat)
    (yIdx uIdx vIdx : Nat) (yuv yuv1 yuv2 yuv3 : List Nat)
    (px p1 p2 p3 : Int × Int × Int)
    (hx : x % 2 = 0) (hy : y % 2 = 0)
    (hp : get_pixel src w x y = some px)
    (hp1 : get_pixel src w (x + 1) y = some p1)
    (hp2 : get_pixel src w x (y + 1) = some p2)
    (hp3 : get_pixel src w (x + 1) (y + 1) = some p3)
    (h1 : writeAt yuv yIdx (calc_y px) = some yuv1)
    (h2 : writeAt yuv1 uIdx
      (clamp ((calc_u px + calc_u p1 + calc_u p2 + calc_u p3).tdiv 4)) = some yuv2)
    (h3 : writeAt yuv2 vIdx
      (clamp ((calc_v px + calc_v p1 + calc_v p2 + calc_v p3).tdiv 4)) = some yuv3) :
    subsInner w src y (n + 1) x yIdx uIdx vIdx yuv =
      subsInner w src y n (x + 1) (yIdx + 1) (uIdx + 1) (vIdx + 1) yuv3 := by
  rw [subsInner]
  simp only [hp, hp1, hp2, hp3, h1, h2, h3, hx, hy, beq_self_eq_true, Bool.and_self,
    if_true]

theorem subsInner_cons_plain (w : Nat) (src : List Nat) (y n x : Nat)
    (yIdx uIdx vIdx : Nat) (yuv yuv1 : List Nat) (px : Int × Int × Int)
    (hna : ((x % 2 == 0) && (y % 2 == 0)) = false)
    (hp : get_pixel src w x y = some px)
    (h1 : writeAt yuv yIdx (calc_y px) = some yuv1) :
    subsInner w src y (n + 1) x yIdx uIdx vIdx yuv =
      subsInner w src y n (x + 1) (yIdx + 1) uIdx vIdx yuv1 := by
  rw [subsInner]
  simp only [hp, h1, hna, Bool.false_eq_true, if_false]

theorem pix_bound (L x y w h : Nat) (hL : L = w * h * 4) (hlt : x + y * w < w * h) :
    (x + y * w) * 4 + 4 ≤ L := by
  have h4 := Nat.mul_le_mul_right 4 (by omega : x + y * w + 1 ≤ w * h)
  have e1 : (x + y * w + 1) * 4 = (x + y * w) * 4 + 4 := by ring
  omega

theorem subsInner_spec (src : List Nat) (w h W H : Nat)
    (hw : w = 2 * W) (hh : h = 2 * H) (hsrc : src.length = w * h * 4)
    (us : Nat) (hus : us = W * H) (y : Nat) (hy : y < h) :
    ∀ (n x a : Nat) (A B C : List Nat),
      x + n = w →
      A.length = x + y * w → B.length = a → C.length = a →
      a + (anchors w n (x + y * w)).length ≤ us →
      subsInner w src y n x (x + y * w) (w * h + a) (w * h + us + a)
        (A ++ (List.replicate (w * h - (x + y * w)) 0 ++
          (B ++ (List.replicate (us - a) 0 ++ (C ++ List.replicate (us - a) 0))))) =
      some (x + y * w + n, w * h + (a + (anchors w n (x + y * w)).length),
        w * h + us + (a + (anchors w n (x + y * w)).length),
        A ++ (mapseg (fun p => calc_y (pix src p)) (x + y * w) n ++
          (List.replicate (w * h - (x + y * w + n)) 0 ++
          (B ++ ((anchors w n (x + y * w)).map (fun p => clamp (avg_u src w p)) ++
          (List.replicate (us - (a + (anchors w n (x + y * w)).length)) 0 ++
          (C ++ ((anchors w n (x + y * w)).map (fun p => clamp (avg_v src w p)) ++
          List.replicate (us - (a + (anchors w n (x + y * w)).length)) 0)))))))) := by
  intro n
  induction n with
  | zero =>
    intro x a A B C hxn hA hB hC ha
    simp [subsInner, mapseg, anchors]
  | succ n ih =>
    intro x a A B C hxn hA hB hC ha
    have hxw : x < w := by omega
    have hplt : x + y * w < w * h := pos_lt_fs w h x y hxw hy
    have hpix : get_pixel src w x y = some (pix src (x + y * w)) :=
      get_pixel_some src w x y (pix_bound src.length x y w h hsrc hplt)
    have h1 := writeAt_block A
      (B ++ (List.replicate (us - a) 0 ++ (C ++ List.replicate (us - a) 0)))
      (w * h - (x + y * w)) (x + y * w) (calc_y (pix src (x + y * w))) hA (by omega)
    have epos : x + 1 + y * w = x + y * w + 1 := by omega
    by_cases hanch : ((x % 2 == 0) && (y % 2 == 0)) = true
    · -- anchor block: three neighbor reads and the chroma writes
      have hx2 : x % 2 = 0 ∧ y % 2 = 0 := by
        simpa [Bool.and_eq_true, beq_iff_eq] using hanch
      have hiso : isAnchor w (x + y * w) = true := by
        rw [isAnchor_pos w y x hxw]
        simp [hx2.1, hx2.2]
      have hlen : (anchors w (n + 1) (x + y * w)).length =
          (anchors w n (x + y * w + 1)).length + 1 := by
        rw [anchors, if_pos hiso, List.length_cons]
      have hau : a < us := by omega
      have hx1w : x + 1 < w := by omega
      have hy1h : y + 1 < h := by omega
      have hp1 : get_pixel src w (x + 1) y = some (pix src (x + y * w + 1)) := by
        have := get_pixel_some src w (x + 1) y
          (pix_bound src.length (x + 1) y w h hsrc (pos_lt_fs w h (x + 1) y hx1w hy))
        rw [epos] at this
        exact this
      have ey1 : x + (y + 1) * w = x + y * w + w := by ring
      have hp2 : get_pixel src w x (y + 1) = some (pix src (x + y * w + w)) := by
        have := get_pixel_some src w x (y + 1)
          (pix_bound src.length x (y + 1) w h hsrc (pos_lt_fs w h x (y + 1) hxw hy1h))
        rw [ey1] at this
        exact this
      have ey2 : x + 1 + (y + 1) * w = x + y * w + w + 1 := by ring
      have hp3 : get_pixel src w (x + 1) (y + 1) = some (pix src (x + y * w + w + 1)) := by
        have := get_pixel_some src w (x + 1) (y + 1)
          (pix_bound src.length (x + 1) (y + 1) w h hsrc
            (pos_lt_fs w h (x + 1) (y + 1) hx1w hy1h))
        rw [ey2] at this
        exact this
      have hP2 : (A ++ (calc_y (pix src (x + y * w)) ::
          (List.replicate (w * h - (x + y * w) - 1) 0 ++ B))).length = w * h + a := by
        simp [hA, hB]
        omega
      have h2 := writeAt_block
        (A ++ (calc_y (pix src (x + y * w)) ::
          (List.replicate (w * h - (x + y * w) - 1) 0 ++ B)))
        (C ++ List.replicate (us - a) 0) (us - a) (w * h + a)
        (clamp (avg_u src w (x + y * w))) hP2 (by omega)
      have hP3 : ((A ++ (calc_y (pix src (x + y * w)) ::
          (List.replicate (w * h - (x + y * w) - 1) 0 ++ B))) ++
          (clamp (avg_u src w (x + y * w)) ::
            (List.replicate (us - a - 1) 0 ++ C))).length = w * h + us + a := by
        simp [hA, hB, hC]
        omega
      have h3 := writeAt_block
        ((A ++ (calc_y (pix src (x + y * w)) ::
          (List.replicate (w * h - (x + y * w) - 1) 0 ++ B))) ++
          (clamp (avg_u src w (x + y * w)) :: (List.replicate (us - a - 1) 0 ++ C)))
        [] (us - a) (w * h + us + a) (clamp (avg_v src w (x + y * w))) hP3 (by omega)
      have hsh2 : A ++ (calc_y (pix src (x + y * w)) ::
            (List.replicate (w * h - (x + y * w) - 1) 0 ++
            (B ++ (List.replicate (us - a) 0 ++ (C ++ List.replicate (us - a) 0))))) =
          (A ++ (calc_y (pix src (x + y * w)) ::
            (List.replicate (w * h - (x + y * w) - 1) 0 ++ B))) ++
            (List.replicate (us - a) 0 ++ (C ++ List.replicate (us - a) 0)) := by
        simp [List.append_assoc]
      have hsh3 : (A ++ (calc_y (pix src (x + y * w)) ::
            (List.replicate (w * h - (x + y * w) - 1) 0 ++ B))) ++
            (clamp (avg_u src w (x + y * w)) :: (List.replicate (us - a - 1) 0 ++
              (C ++ List.replicate (us - a) 0))) =
          ((A ++ (calc_y (pix src (x + y * w)) ::
            (List.replicate (w * h - (x + y * w) - 1) 0 ++ B))) ++
            (clamp (avg_u src w (x + y * w)) :: (List.replicate (us - a - 1) 0 ++ C))) ++
            (List.replicate (us - a) 0 ++ []) := by
        simp [List.append_assoc]
      rw [hsh2] at h1
      rw [hsh3] at h2
      rw [subsInner_cons_anchor _ _ _ _ _ _ _ _ _ _ _ _ _ _ _ _ hx2.1 hx2.2 hpix hp1
        hp2 hp3 h1 h2 h3]
      have e1 : w * h + a + 1 = w * h + (a + 1) := by omega
      have e2 : w * h + us + a + 1 = w * h + us + (a + 1) := by omega
      rw [e1, e2]
      have hbuf : ((A ++ (calc_y (pix src (x + y * w)) ::
            (List.replicate (w * h - (x + y * w) - 1) 0 ++ B))) ++
            (clamp (avg_u src w (x + y * w)) :: (List.replicate (us - a - 1) 0 ++ C))) ++
            (clamp (avg_v src w (x + y * w)) :: (List.replicate (us - a - 1) 0 ++ [])) =
          (A ++ [calc_y (pix src (x + y * w))]) ++
            (List.replicate (w * h - (x + y * w + 1)) 0 ++
            ((B ++ [clamp (avg_u src w (x + y * w))]) ++
            (List.replicate (us - (a + 1)) 0 ++
            ((C ++ [clamp (avg_v src w (x + y * w))]) ++
              List.replicate (us - (a + 1)) 0)))) := by
        have eA : w * h - (x + y * w) - 1 = w * h - (x + y * w + 1) := by omega
        have eB : us - a - 1 = us - (a + 1) := by omega
        rw [eA, eB]
        simp [List.append_assoc]
      rw [hbuf]
      have ihx := ih (x + 1) (a + 1) (A ++ [calc_y (pix src (x + y * w))])
        (B ++ [clamp (avg_u src w (x + y * w))]) (C ++ [clamp (avg_v src w (x + y * w))])
        (by omega) (by simp [hA]; omega) (by simp [hB]) (by simp [hC])
        (by rw [epos]; rw [hlen] at ha; omega)
      rw [epos] at ihx
      rw [ihx]
      rw [anchors, if_pos hiso, mapseg]
      have e3 : w * h - (x + y * w + (n + 1)) = w * h - (x + y * w + 1 + n) := by omega
      have e4 : us - (a + ((anchors w n (x + y * w + 1)).length + 1)) =
          us - (a + 1 + (anchors w n (x + y * w + 1)).length) := by omega
      have e5 : x + y * w + 1 + n = x + y * w + (n + 1) := by omega
      have e6 : a + ((anchors w n (x + y * w + 1)).length + 1) =
          a + 1 + (anchors w n (x + y * w + 1)).length := by omega
      simp only [List.length_cons, List.map_cons, e3, e4, e5, e6]
      simp [List.append_assoc]
    · have hna : ((x % 2 == 0) && (y % 2 == 0)) = false := by
        rw [Bool.not_eq_true] at hanch
        exact hanch
      have hiso : ¬ isAnchor w (x + y * w) = true := by
        rw [isAnchor_pos w y x hxw, hna]
        simp
      rw [subsInner_cons_plain _ _ _ _ _ _ _ _ _ _ _ hna hpix h1]
      have hbuf : A ++ (calc_y (pix src (x + y * w)) ::
            (List.replicate (w * h - (x + y * w) - 1) 0 ++
            (B ++ (List.replicate (us - a) 0 ++ (C ++ List.replicate (us - a) 0))))) =
          (A ++ [calc_y (pix src (x + y * w))]) ++
            (List.replicate (w * h - (x + y * w + 1)) 0 ++
            (B ++ (List.replicate (us - a) 0 ++ (C ++ List.replicate (us - a) 0)))) := by
        have eA : w * h - (x + y * w) - 1 = w * h - (x + y * w + 1) := by omega
        rw [eA]
        simp [List.append_assoc]
      rw [hbuf]
      have ihx := ih (x + 1) a (A ++ [calc_y (pix src (x + y * w))]) B C
        (by omega) (by simp [hA]; omega) hB hC
        (by rw [epos]; rw [anchors, if_neg hiso] at ha; exact ha)
      rw [epos] at ihx
      rw [ihx]
      rw [anchors, if_neg hiso, mapseg]
      have e3 : w * h - (x + y * w + (n + 1)) = w * h - (x + y * w + 1 + n) := by omega
      have e5 : x + y * w + 1 + n = x + y * w + (n + 1) := by omega
      simp only [e3, e5]
      simp [List.append_assoc]

theorem subsOuter_spec (src : List Nat) (w h W H : Nat)
    (hw : w = 2 * W) (hh : h = 2 * H) (hsrc : src.length = w * h * 4)
    (us : Nat) (hus : us = W * H) :
    ∀ (m y a : Nat) (A B C : List Nat),
      y + m = h →
      A.length = y * w → B.length = a → C.length = a →
      a + (anchors w (m * w) (y * w)).length ≤ us →
      subsOuter w src m y (y * w) (w * h + a) (w * h + us + a)
        (A ++ (List.replicate (w * h - y * w) 0 ++
          (B ++ (List.replicate (us - a) 0 ++ (C ++ List.replicate (us - a) 0))))) =
      some (A ++ (mapseg (fun p => calc_y (pix src p)) (y * w) (m * w) ++
        (List.replicate (w * h - (y * w + m * w)) 0 ++
        (B ++ ((anchors w (m * w) (y * w)).map (fun p => clamp (avg_u src w p)) ++
        (List.replicate (us - (a + (anchors w (m * w) (y * w)).length)) 0 ++
        (C ++ ((anchors w (m * w) (y * w)).map (fun p => clamp (avg_v src w p)) ++
        List.replicate (us - (a + (anchors w (m * w) (y * w)).length)) 0)))))))) := by
  intro m
  induction m with
  | zero =>
    intro y a A B C hym hA hB hC ha
    simp [subsOuter, mapseg, anchors]
  | succ m ih =>
    intro y a A B C hym hA hB hC ha
    have hy : y < h := by omega
    have hsplit : (m + 1) * w = w + m * w := by ring
    have erow : y * w + w = (y + 1) * w := by ring
    have hinner := subsInner_spec src w h W H hw hh hsrc us hus y hy w 0 a A B C
      (by omega) (by simpa using hA) hB hC
      (by
        rw [Nat.zero_add]
        rw [hsplit, anchors_append w w (m * w) (y * w), List.length_append] at ha
        omega)
    simp only [Nat.zero_add] at hinner
    rw [subsOuter]
    simp only [hinner]
    rw [hsplit, anchors_append w w (m * w) (y * w), mapseg_append _ w (m * w) (y * w)]
    rw [hsplit, anchors_append w w (m * w) (y * w), List.length_append] at ha
    -- reshape the row output as the induction hypothesis input
    have hbuf : A ++ (mapseg (fun p => calc_y (pix src p)) (y * w) w ++
          (List.replicate (w * h - (y * w + w)) 0 ++
          (B ++ ((anchors w w (y * w)).map (fun p => clamp (avg_u src w p)) ++
          (List.replicate (us - (a + (anchors w w (y * w)).length)) 0 ++
          (C ++ ((anchors w w (y * w)).map (fun p => clamp (avg_v src w p)) ++
          List.replicate (us - (a + (anchors w w (y * w)).length)) 0))))))) =
        (A ++ mapseg (fun p => calc_y (pix src p)) (y * w) w) ++
          (List.replicate (w * h - (y + 1) * w) 0 ++
          ((B ++ (anchors w w (y * w)).map (fun p => clamp (avg_u src w p))) ++
          (List.replicate (us - (a + (anchors w w (y * w)).length)) 0 ++
          ((C ++ (anchors w w (y * w)).map (fun p => clamp (avg_v src w p))) ++
          List.replicate (us - (a + (anchors w w (y * w)).length)) 0)))) := by
      rw [erow]
      simp [List.append_assoc]
    rw [hbuf, erow]
    have ihx := ih (y + 1) (a + (anchors w w (y * w)).length)
      (A ++ mapseg (fun p => calc_y (pix src p)) (y * w) w)
      (B ++ (anchors w w (y * w)).map (fun p => clamp (avg_u src w p)))
      (C ++ (anchors w w (y * w)).map (fun p => clamp (avg_v src w p)))
      (by omega)
      (by
        rw [List.length_append, hA, mapseg_length]
        omega)
      (by rw [List.length_append, hB, List.length_map])
      (by rw [List.length_append, hC, List.length_map])
      (by
        rw [← erow]
        omega)
    rw [ihx]
    have e1 : w * h - (y * w + (w + m * w)) = w * h - (y * w + w + m * w) := by omega
    have e2 : us - (a + ((anchors w w (y * w)).length +
          (anchors w (m * w) (y * w + w)).length)) =
        us - (a + (anchors w w (y * w)).length +
          (anchors w (m * w) (y * w + w)).length) := by omega
    simp only [List.map_append, List.length_append, e1, e2]
    simp [List.append_assoc]
    rw [← erow]
    have e4 : a + (anchors w w (y * w)).length + (anchors w (m * w) (y * w + w)).length =
        a + ((anchors w w (y * w)).length + (anchors w (m * w) (y * w + w)).length) := by
      omega
    rw [e4]

/-- Characterization of `argb_to_yuv420_with_subsampling` on a well-formed
even-dimension frame: Y plane, then U and V planes holding one 2×2-averaged
sample per anchor position in row-major order. -/
theorem argb_to_yuv420_with_subsampling_char (w h W H : Nat) (hw : w = 2 * W)
    (hh : h = 2 * H) (src : List Nat) (hs : src.length = w * h * 4) :
    argb_to_yuv420_with_subsampling w h src =
      some (mapseg (fun p => calc_y (pix src p)) 0 (w * h) ++
        ((anchors w (w * h) 0).map (fun p => clamp (avg_u src w p)) ++
          (anchors w (w * h) 0).map (fun p => clamp (avg_v src w p)))) := by
  have hfs4 : w * h = 4 * (W * H) := by subst hw; subst hh; ring
  have hus : w * h / 4 = W * H := by
    rw [hfs4, Nat.mul_div_cancel_left _ (by norm_num)]
  have h32 : w * h * 3 / 2 = w * h + (W * H + W * H) := by
    rw [hfs4]
    omega
  have hcm : h * w = w * h := by ring
  have htot : (anchors w (w * h) 0).length = W * H := anchors_total w h W H hw hh
  have spec := subsOuter_spec src w h W H hw hh hs (W * H) rfl h 0 0 [] [] []
    (by omega) (by simp) rfl rfl
    (by
      rw [Nat.zero_mul, hcm]
      rw [htot]
      omega)
  simp only [Nat.zero_mul, hcm, Nat.zero_add, Nat.add_zero, Nat.sub_zero,
    List.nil_append, htot, Nat.sub_self, List.replicate_zero, List.append_nil] at spec
  simp only [argb_to_yuv420_with_subsampling]
  rw [hus, h32, List.replicate_add, List.replicate_add]
  exact spec

/-! ## Read-off lemmas for the claims -/

theorem pix_bound2 (p fs : Nat) (hp : p < fs) : p * 4 + 4 ≤ fs * 4 := by
  have h4 := Nat.mul_le_mul_right 4 (by omega : p + 1 ≤ fs)
  have e1 : (p + 1) * 4 = p * 4 + 4 := by ring
  omega

theorem pix_off_alpha (src src' : List Nat) (L : Nat)
    (hag : ∀ i, i < L → i % 4 = 3 ∨ src.getD i 0 = src'.getD i 0)
    (p : Nat) (hp : p * 4 + 4 ≤ L) : pix src p = pix src' p := by
  unfold pix
  have h2 : src.getD (p * 4 + 2) 0 = src'.getD (p * 4 + 2) 0 := by
    rcases hag (p * 4 + 2) (by omega) with hx | hx
    · omega
    · exact hx
  have h1 : src.getD (p * 4 + 1) 0 = src'.getD (p * 4 + 1) 0 := by
    rcases hag (p * 4 + 1) (by omega) with hx | hx
    · omega
    · exact hx
  have h0 : src.getD (p * 4) 0 = src'.getD (p * 4) 0 := by
    rcases hag (p * 4) (by omega) with hx | hx
    · omega
    · exact hx
  rw [h0, h1, h2]

theorem anchor_block_lt (w h W H : Nat) (hw : w = 2 * W) (hh : h = 2 * H)
    (p : Nat) (hp : p < w * h) (hiso : isAnchor w p = true) :
    p + w + 1 < w * h := by
  have hx : p % w % 2 = 0 ∧ p / w % 2 = 0 := by
    simpa [isAnchor, Bool.and_eq_true, beq_iff_eq] using hiso
  have hw0 : 0 < w := by
    rcases Nat.eq_zero_or_pos w with h0 | h0
    · subst h0
      simp at hp
    · exact h0
  have hxw : p % w < w := Nat.mod_lt _ hw0
  have hyh : p / w < h := by
    rw [Nat.div_lt_iff_lt_mul hw0]
    have : w * h = h * w := by ring
    omega
  have hx2 : p % w ≤ w - 2 := by omega
  have hy2 : p / w ≤ h - 2 := by omega
  have hdm := Nat.div_add_mod p w
  have hb : (p / w + 2) * w ≤ h * w := Nat.mul_le_mul_right w (by omega)
  have he : (p / w + 2) * w = w * (p / w) + 2 * w := by ring
  have hcm : h * w = w * h := by ring
  omega

theorem ord_lt (w h W H r c : Nat) (hw : w = 2 * W) (hh : h = 2 * H)
    (hr : r < h) (hc : c < w) : r / 2 * W + c / 2 < W * H := by
  have hrH : r / 2 + 1 ≤ H := by omega
  have hcW : c / 2 < W := by omega
  have hb := Nat.mul_le_mul_right W hrH
  have he : (r / 2 + 1) * W = r / 2 * W + W := by ring
  have hcm : H * W = W * H := by ring
  omega

theorem chroma_get (w hgt W H : Nat) (hw : w = 2 * W) (hh : hgt = 2 * H)
    (g : Nat → Nat) (r c : Nat) (hr : r < hgt) (hc : c < w)
    (hre : r % 2 = 0) (hce : c % 2 = 0) :
    ((anchors w (w * hgt) 0).map g).get? (r / 2 * W + c / 2) =
      some (g (r * w + c)) := by
  have hj : r * w + c < w * hgt := by
    have := pos_lt_fs w hgt c r hc hr
    omega
  have hiso : isAnchor w (0 + (r * w + c)) = true := by
    rw [Nat.zero_add]
    have hcomm : r * w + c = c + r * w := by omega
    rw [hcomm, isAnchor_pos w r c hc]
    simp [hre, hce]
  have hget := anchors_get w (r * w + c) (w * hgt) 0 hj hiso
  rw [Nat.zero_add] at hget
  rw [anchors_ordinal w W hw r c hre hce hc] at hget
  have hget' : (anchors w (w * hgt) 0)[r / 2 * W + c / 2]? = some (r * w + c) := by
    rw [← List.get?_eq_getElem?]
    exact hget
  rw [List.get?_eq_getElem?, List.getElem?_map, hget']
  rfl

/-- The three converters agree on buffers that differ only in alpha bytes
(even dimensions, well-formed length): no alpha byte is ever read. -/
theorem conv_off_alpha (w h W H : Nat) (hw : w = 2 * W) (hh : h = 2 * H)
    (src src' : List Nat) (hs : src.length = w * h * 4)
    (hs' : src'.length = w * h * 4)
    (halpha : ∀ i, i < w * h * 4 → i % 4 = 3 ∨ src.getD i 0 = src'.getD i 0) :
    argb_to_yuv420 w h src = argb_to_yuv420 w h src' ∧
    argb_to_yuv420_with_subsampling w h src =
      argb_to_yuv420_with_subsampling w h src' ∧
    argb_to_yuv444 w h src = argb_to_yuv444 w h src' := by
  have hpix : ∀ p, p < w * h → pix src p = pix src' p := by
    intro p hp
    exact pix_off_alpha src src' (w * h * 4) halpha p (pix_bound2 p (w * h) hp)
  have hyseg : mapseg (fun p => calc_y (pix src p)) 0 (w * h) =
      mapseg (fun p => calc_y (pix src' p)) 0 (w * h) := by
    apply mapseg_congr
    intro p _ hp2
    rw [hpix p (by omega)]
  have huseg : mapseg (fun p => clamp (calc_u (pix src p))) 0 (w * h) =
      mapseg (fun p => clamp (calc_u (pix src' p))) 0 (w * h) := by
    apply mapseg_congr
    intro p _ hp2
    rw [hpix p (by omega)]
  have hvseg : mapseg (fun p => clamp (calc_v (pix src p))) 0 (w * h) =
      mapseg (fun p => clamp (calc_v (pix src' p))) 0 (w * h) := by
    apply mapseg_congr
    intro p _ hp2
    rw [hpix p (by omega)]
  have humap : (anchors w (w * h) 0).map (fun p => clamp (calc_u (pix src p))) =
      (anchors w (w * h) 0).map (fun p => clamp (calc_u (pix src' p))) := by
    apply List.map_congr_left
    intro p hp
    obtain ⟨_, hlt, _⟩ := anchors_mem w (w * h) 0 p hp
    rw [hpix p (by omega)]
  have hvmap : (anchors w (w * h) 0).map (fun p => clamp (calc_v (pix src p))) =
      (anchors w (w * h) 0).map (fun p => clamp (calc_v (pix src' p))) := by
    apply List.map_congr_left
    intro p hp
    obtain ⟨_, hlt, _⟩ := anchors_mem w (w * h) 0 p hp
    rw [hpix p (by omega)]
  have huavg : (anchors w (w * h) 0).map (fun p => clamp (avg_u src w p)) =
      (anchors w (w * h) 0).map (fun p => clamp (avg_u src' w p)) := by
    apply List.map_congr_left
    intro p hp
    obtain ⟨_, hlt, hiso⟩ := anchors_mem w (w * h) 0 p hp
    rw [Nat.zero_add] at hlt
    have hblk := anchor_block_lt w h W H hw hh p hlt hiso
    unfold avg_u
    rw [hpix p hlt, hpix (p + 1) (by omega), hpix (p + w) (by omega),
      hpix (p + w + 1) hblk]
  have hvavg : (anchors w (w * h) 0).map (fun p => clamp (avg_v src w p)) =
      (anchors w (w * h) 0).map (fun p => clamp (avg_v src' w p)) := by
    apply List.map_congr_left
    intro p hp
    obtain ⟨_, hlt, hiso⟩ := anchors_mem w (w * h) 0 p hp
    rw [Nat.zero_add] at hlt
    have hblk := anchor_block_lt w h W H hw hh p hlt hiso
    unfold avg_v
    rw [hpix p hlt, hpix (p + 1) (by omega), hpix (p + w) (by omega),
      hpix (p + w + 1) hblk]
  refine ⟨?_, ?_, ?_⟩
  · rw [argb_to_yuv420_char w h W H hw hh src hs,
      argb_to_yuv420_char w h W H hw hh src' hs', hyseg, humap, hvmap]
  · rw [argb_to_yuv420_with_subsampling_char w h W H hw hh src hs,
      argb_to_yuv420_with_subsampling_char w h W H hw hh src' hs', hyseg, huavg, hvavg]
  · rw [argb_to_yuv444_char w h src hs, argb_to_yuv444_char w h src' hs',
      hyseg, huseg, hvseg]

theorem luma_read (L2 : List Nat) (f : Nat → Nat) (n j : Nat) (hj : j < n) :
    (mapseg f 0 n ++ L2).get? j = some (f j) := by
  rw [getq_append_left _ _ j (by rw [mapseg_length]; omega), mapseg_get? f n 0 j hj,
    Nat.zero_add]

/-- Claim C1 (amended), part 1 — the counterexample to C1 as stated: with
`width = height = 1` and `src.len() = 1*1*4`, `argb_to_yuv420` panics (the
chroma write at index 1 is out of bounds of the 1-byte output), so there is no
output holding the luma sample: evenness of the dimensions is required for the
two 4:2:0 converters. -/
theorem claim1_counterexample : argb_to_yuv420 1 1 [0, 0, 0, 0] = none := by
  decide

/-- Claim C1, amended: for `src.len() = width*height*4` and even width and
height, each of the three converters returns a buffer whose entry at index
`r*width + c` is the luma sample `clamp((66R + 129G + 25B + 128)/256 + 16)`
(that is `calc_y (pix src (r*width + c))`) of the pixel at row `r`, column
`c`, and none of them ever reads an alpha byte: two inputs differing only at
byte indices `≡ 3 (mod 4)` produce identical outputs. -/
theorem claim1_theorem (w h : Nat) (src src' : List Nat) (r c : Nat)
    (hw : 2 ∣ w) (hh : 2 ∣ h)
    (hs : src.length = w * h * 4) (hs' : src'.length = w * h * 4)
    (halpha : ∀ i, i < w * h * 4 → i % 4 = 3 ∨ src.getD i 0 = src'.getD i 0)
    (hr : r < h) (hc : c < w) :
    (argb_to_yuv420 w h src).bind (fun yuv => yuv.get? (r * w + c)) =
      some (calc_y (pix src (r * w + c))) ∧
    (argb_to_yuv420_with_subsampling w h src).bind
        (fun yuv => yuv.get? (r * w + c)) =
      some (calc_y (pix src (r * w + c))) ∧
    (argb_to_yuv444 w h src).bind (fun yuv => yuv.get? (r * w + c)) =
      some (calc_y (pix src (r * w + c))) ∧
    argb_to_yuv420 w h src = argb_to_yuv420 w h src' ∧
    argb_to_yuv420_with_subsampling w h src =
      argb_to_yuv420_with_subsampling w h src' ∧
    argb_to_yuv444 w h src = argb_to_yuv444 w h src' := by
  obtain ⟨W, hW⟩ := hw
  obtain ⟨H, hH⟩ := hh
  have hj : r * w + c < w * h := by
    have := pos_lt_fs w h c r hc hr
    omega
  obtain ⟨h420, hsub, h444⟩ := conv_off_alpha w h W H hW hH src src' hs hs' halpha
  refine ⟨?_, ?_, ?_, h420, hsub, h444⟩
  · rw [argb_to_yuv420_char w h W H hW hH src hs]
    simp only [Option.some_bind]
    exact luma_read _ _ (w * h) _ hj
  · rw [argb_to_yuv420_with_subsampling_char w h W H hW hH src hs]
    simp only [Option.some_bind]
    exact luma_read _ _ (w * h) _ hj
  · rw [argb_to_yuv444_char w h src hs]
    simp only [Option.some_bind]
    exact luma_read _ _ (w * h) _ hj

/-- Claim C2: in `argb_to_yuv420`, chroma comes only from anchor pixels (both
coordinates even), each sample computed from that pixel alone by the
`calc_u`/`calc_v` formulas, and the planes are filled in the row-major order
of the anchors: the sample of the anchor at row `r`, column `c` sits at
ordinal `(r/2)*(w/2) + c/2` of its plane. -/
theorem claim2_theorem (w h : Nat) (src : List Nat) (r c : Nat)
    (hw : 2 ∣ w) (hh : 2 ∣ h) (hs : src.length = w * h * 4)
    (hr : r < h) (hc : c < w) (hre : r % 2 = 0) (hce : c % 2 = 0) :
    (argb_to_yuv420 w h src).bind
        (fun yuv => yuv.get? (w * h + (r / 2 * (w / 2) + c / 2))) =
      some (clamp (calc_u (pix src (r * w + c)))) ∧
    (argb_to_yuv420 w h src).bind
        (fun yuv => yuv.get? (w * h + w * h / 4 + (r / 2 * (w / 2) + c / 2))) =
      some (clamp (calc_v (pix src (r * w + c)))) ∧
    (argb_to_yuv420 w h src).map (fun yuv => yuv.drop (w * h)) =
      some ((anchors w (w * h) 0).map (fun p => clamp (calc_u (pix src p))) ++
        (anchors w (w * h) 0).map (fun p => clamp (calc_v (pix src p)))) ∧
    (anchors w (w * h) 0).all (fun p => isAnchor w p) = true := by
  obtain ⟨W, hW⟩ := hw
  obtain ⟨H, hH⟩ := hh
  have hW2 : w / 2 = W := by omega
  have hord := ord_lt w h W H r c hW hH hr hc
  have hfs4 : w * h = 4 * (W * H) := by subst hW; subst hH; ring
  have hus : w * h / 4 = W * H := by rw [hfs4]; omega
  have htot : (anchors w (w * h) 0).length = W * H := anchors_total w h W H hW hH
  rw [argb_to_yuv420_char w h W H hW hH src hs, hW2, hus]
  refine ⟨?_, ?_, ?_, anchors_all_isAnchor w (w * h) 0⟩
  · simp only [Option.some_bind]
    rw [getq_append_right _ _ _ (by rw [mapseg_length]; omega)]
    have e : w * h + (r / 2 * W + c / 2) -
        (mapseg (fun p => calc_y (pix src p)) 0 (w * h)).length =
        r / 2 * W + c / 2 := by
      rw [mapseg_length]
      omega
    rw [e, getq_append_left _ _ _ (by rw [List.length_map, htot]; omega)]
    exact chroma_get w h W H hW hH _ r c hr hc hre hce
  · simp only [Option.some_bind]
    rw [getq_append_right _ _ _ (by rw [mapseg_length]; omega)]
    have e : w * h + W * H + (r / 2 * W + c / 2) -
        (mapseg (fun p => calc_y (pix src p)) 0 (w * h)).length =
        W * H + (r / 2 * W + c / 2) := by
      rw [mapseg_length]
      omega
    rw [e, getq_append_right _ _ _ (by rw [List.length_map, htot]; omega)]
    have e2 : W * H + (r / 2 * W + c / 2) -
        ((anchors w (w * h) 0).map (fun p => clamp (calc_u (pix src p)))).length =
        r / 2 * W + c / 2 := by
      rw [List.length_map, htot]
      omega
    rw [e2]
    exact chroma_get w h W H hW hH _ r c hr hc hre hce
  · simp only [Option.map_some']
    rw [List.drop_left' (by rw [mapseg_length])]

/-- Claim C3: in `argb_to_yuv420_with_subsampling`, the chroma pair of the
2×2 block anchored at even `(r, c)` is the truncated arithmetic mean of the
four per-pixel (unclamped) `calc_u`/`calc_v` values of the block's pixels,
clamped after averaging, stored at the same row-major anchor ordinal. -/
theorem claim3_theorem (w h : Nat) (src : List Nat) (r c : Nat)
    (hw : 2 ∣ w) (hh : 2 ∣ h) (hs : src.length = w * h * 4)
    (hr : r < h) (hc : c < w) (hre : r % 2 = 0) (hce : c % 2 = 0) :
    (argb_to_yuv420_with_subsampling w h src).bind
        (fun yuv => yuv.get? (w * h + (r / 2 * (w / 2) + c / 2))) =
      some (clamp ((calc_u (pix src (r * w + c)) + calc_u (pix src (r * w + c + 1)) +
        calc_u (pix src (r * w + c + w)) +
        calc_u (pix src (r * w + c + w + 1))).tdiv 4)) ∧
    (argb_to_yuv420_with_subsampling w h src).bind
        (fun yuv => yuv.get? (w * h + w * h / 4 + (r / 2 * (w / 2) + c / 2))) =
      some (clamp ((calc_v (pix src (r * w + c)) + calc_v (pix src (r * w + c + 1)) +
        calc_v (pix src (r * w + c + w)) +
        calc_v (pix src (r * w + c + w + 1))).tdiv 4)) := by
  obtain ⟨W, hW⟩ := hw
  obtain ⟨H, hH⟩ := hh
  have hW2 : w / 2 = W := by omega
  have hord := ord_lt w h W H r c hW hH hr hc
  have hfs4 : w * h = 4 * (W * H) := by subst hW; subst hH; ring
  have hus : w * h / 4 = W * H := by rw [hfs4]; omega
  have htot : (anchors w (w * h) 0).length = W * H := anchors_total w h W H hW hH
  rw [argb_to_yuv420_with_subsampling_char w h W H hW hH src hs, hW2, hus]
  constructor
  · simp only [Option.some_bind]
    rw [getq_append_right _ _ _ (by rw [mapseg_length]; omega)]
    have e : w * h + (r / 2 * W + c / 2) -
        (mapseg (fun p => calc_y (pix src p)) 0 (w * h)).length =
        r / 2 * W + c / 2 := by
      rw [mapseg_length]
      omega
    rw [e, getq_append_left _ _ _ (by rw [List.length_map, htot]; omega)]
    exact chroma_get w h W H hW hH _ r c hr hc hre hce
  · simp only [Option.some_bind]
    rw [getq_append_right _ _ _ (by rw [mapseg_length]; omega)]
    have e : w * h + W * H + (r / 2 * W + c / 2) -
        (mapseg (fun p => calc_y (pix src p)) 0 (w * h)).length =
        W * H + (r / 2 * W + c / 2) := by
      rw [mapseg_length]
      omega
    rw [e, getq_append_right _ _ _ (by rw [List.length_map, htot]; omega)]
    have e2 : W * H + (r / 2 * W + c / 2) -
        ((anchors w (w * h) 0).map (fun p => clamp (avg_u src w p))).length =
        r / 2 * W + c / 2 := by
      rw [List.length_map, htot]
      omega
    rw [e2]
    exact chroma_get w h W H hW hH _ r c hr hc hre hce

/-- Claim C4: output sizes — both 4:2:0 converters return exactly
`width*height*3/2` bytes, the 4:4:4 converter exactly `width*height*3`. -/
theorem claim4_theorem (w h : Nat) (src : List Nat) (hw : 2 ∣ w) (hh : 2 ∣ h)
    (hs : src.length = w * h * 4) :
    (argb_to_yuv420 w h src).map List.length = some (w * h * 3 / 2) ∧
    (argb_to_yuv420_with_subsampling w h src).map List.length =
      some (w * h * 3 / 2) ∧
    (argb_to_yuv444 w h src).map List.length = some (w * h * 3) := by
  obtain ⟨W, hW⟩ := hw
  obtain ⟨H, hH⟩ := hh
  have hfs4 : w * h = 4 * (W * H) := by subst hW; subst hH; ring
  have htot : (anchors w (w * h) 0).length = W * H := anchors_total w h W H hW hH
  have h32 : w * h + (W * H + W * H) = w * h * 3 / 2 := by
    rw [hfs4]
    omega
  have h3 : w * h + (w * h + w * h) = w * h * 3 := by ring
  refine ⟨?_, ?_, ?_⟩
  · rw [argb_to_yuv420_char w h W H hW hH src hs]
    simp only [Option.map_some', List.length_append, mapseg_length,
      List.length_map, htot]
    rw [h32]
  · rw [argb_to_yuv420_with_subsampling_char w h W H hW hH src hs]
    simp only [Option.map_some', List.length_append, mapseg_length,
      List.length_map, htot]
    rw [h32]
  · rw [argb_to_yuv444_char w h src hs]
    simp only [Option.map_some', List.length_append, mapseg_length]
    rw [h3]

/-- Claim C5: `process_frame` submits the buffer produced by
`argb_to_yuv420` — `width*height*3/2` bytes, the 4:2:0 planar layout — while
tagging it `VPX_IMG_FMT_I444`, whose layout is `width*height*3` bytes; the tag
never matches the submitted buffer's layout. -/
theorem claim5_theorem (w h : Nat) (frame : List Nat)
    (hw : 2 ∣ w) (hh : 2 ∣ h) (hpos : 0 < w * h)
    (hs : frame.length = w * h * 4) :
    (process_frame w h frame).map (fun sub => sub.2) =
      some vpx_img_fmt.VPX_IMG_FMT_I444 ∧
    (process_frame w h frame).map (fun sub => sub.1.length) =
      some (w * h * 3 / 2) ∧
    w * h * 3 / 2 ≠ fmtFrameSize vpx_img_fmt.VPX_IMG_FMT_I444 w h := by
  obtain ⟨W, hW⟩ := hw
  obtain ⟨H, hH⟩ := hh
  have hfs4 : w * h = 4 * (W * H) := by subst hW; subst hH; ring
  have htot : (anchors w (w * h) 0).length = W * H := anchors_total w h W H hW hH
  have h32 : w * h + (W * H + W * H) = w * h * 3 / 2 := by
    rw [hfs4]
    omega
  have hchar := argb_to_yuv420_char w h W H hW hH frame hs
  refine ⟨?_, ?_, ?_⟩
  · simp only [process_frame, hchar, Option.map_some']
  · simp only [process_frame, hchar, Option.map_some', List.length_append,
      mapseg_length, List.length_map, htot]
    rw [h32]
  · simp only [fmtFrameSize]
    rw [← h32]
    rw [hfs4] at hpos ⊢
    have e : 4 * (W * H) * 3 = 12 * (W * H) := by ring
    rw [e]
    omega

/-- Claim C6 counterexample: an input-contract violation that does NOT fail
loudly — with `width = height = 2` and an empty `src` (so
`src.len() ≠ width*height*4`), `argb_to_yuv420` silently returns the
zero-initialized `width*height*3/2`-byte buffer instead of failing. -/
theorem claim6_counterexample :
    argb_to_yuv420 2 2 [] = some (List.replicate 6 0) := by decide

/-- Claim C6, amended: contract violations are not uniformly detected.  A
too-short buffer makes `argb_to_yuv420_with_subsampling` panic (loud), but
`argb_to_yuv420` and `argb_to_yuv444` silently return the zero-initialized
output for an empty `src`, and `argb_to_yuv444` silently ignores trailing
extra bytes — the converters never validate `src.len() == width*height*4`. -/
theorem claim6_theorem :
    argb_to_yuv420 2 2 [] = some [0, 0, 0, 0, 0, 0] ∧
    argb_to_yuv444 2 2 [] = some [0, 0, 0, 0, 0, 0, 0, 0, 0, 0, 0, 0] ∧
    argb_to_yuv420_with_subsampling 2 2 [] = none ∧
    argb_to_yuv444 2 2 [9, 9, 9, 9, 9, 9, 9, 9, 9, 9, 9, 9, 9, 9, 9, 9, 7] =
      argb_to_yuv444 2 2 [9, 9, 9, 9, 9, 9, 9, 9, 9, 9, 9, 9, 9, 9, 9, 9] := by
  decide

/-- Claim C7 counterexample: for the all-red 2×2 frame (`R = 255`, BGRA bytes
`0,0,255,255` per pixel), the nearest-sample U value produced by the code is
`91`, not the `90` the claim derives from floor division — Rust's `i32`
division truncates toward zero, so `(-38*255 + 128)/256 = -37`, not `-38`. -/
theorem claim7_counterexample :
    argb_to_yuv420 2 2 [0, 0, 255, 255, 0, 0, 255, 255, 0, 0, 255, 255, 0, 0, 255, 255] =
      some [82, 82, 82, 82, 91, 240] ∧ (91 : Nat) ≠ 90 := by
  decide

/-- Claim C7, amended: the signed intermediate division in the color-matrix
formulas truncates toward zero (Rust `i32` division), not toward negative
infinity; for pure red the nearest-sample U intermediate
`(-38*255 + 128)/256` evaluates to `-37`, so `U = 91`. -/
theorem claim7_theorem :
    calc_u (255, 0, 0) = 91 ∧
    Int.tdiv (-38 * 255 + 128) 256 = -37 ∧
    argb_to_yuv420 2 2 [0, 0, 255, 255, 0, 0, 255, 255, 0, 0, 255, 255, 0, 0, 255, 255] =
      some [82, 82, 82, 82, 91, 240] := by
  decide

/-- Claim C8: on even dimensions and a well-formed buffer all three
converters are total — every read and write is in bounds, so the model
returns `some` rather than the panic value `none` — and the anchor count
exactly fills each `width*height/4`-byte chroma plane. -/
theorem claim8_theorem (w h : Nat) (src : List Nat) (hw : 2 ∣ w) (hh : 2 ∣ h)
    (hs : src.length = w * h * 4) :
    (argb_to_yuv420 w h src).isSome = true ∧
    (argb_to_yuv420_with_subsampling w h src).isSome = true ∧
    (argb_to_yuv444 w h src).isSome = true ∧
    (anchors w (w * h) 0).length = w * h / 4 := by
  obtain ⟨W, hW⟩ := hw
  obtain ⟨H, hH⟩ := hh
  have hfs4 : w * h = 4 * (W * H) := by subst hW; subst hH; ring
  have hus : w * h / 4 = W * H := by
    rw [hfs4]
    omega
  refine ⟨?_, ?_, ?_, ?_⟩
  · rw [argb_to_yuv420_char w h W H hW hH src hs]
    rfl
  · rw [argb_to_yuv420_with_subsampling_char w h W H hW hH src hs]
    rfl
  · rw [argb_to_yuv444_char w h src hs]
    rfl
  · rw [anchors_total w h W H hW hH, hus]

/-- Claim C9: in the `Running` loop, a would-block frame result is a silent
no-op — the encoder state is untouched, nothing is converted or forwarded, no
error is reported, and the iteration proceeds to pacing and then to the next
iteration — while any other frame-source error immediately ends the loop and
runs the drain sequence: the encoder's `finish` is called, every remaining
buffered packet is forwarded to the muxer in yield order, and the muxer is
finalized. -/
theorem claim9_theorem (E : Type)
    (encode : E → Nat → List Nat → vpx_img_fmt → E × List Nat)
    (finish : E → List Nat) (w h : Nat) (max_time : Option Nat)
    (rest : List IterIn) (e : E) (mux : List Nat) (tr : List Event) (t : Nat)
    (hmax : maxTimeExceeded t max_time = false) :
    runPipeline encode finish w h max_time
        (⟨false, t, FrameResult.wouldBlock⟩ :: rest) e mux tr =
      runPipeline encode finish w h max_time rest e mux (tr ++ [Event.paced]) ∧
    runPipeline encode finish w h max_time
        (⟨false, t, FrameResult.fatal⟩ :: rest) e mux tr =
      some (mux ++ finish e, tr ++ [Event.errorReported] ++
        Event.finishCalled :: (finish e).map Event.muxAdd ++ [Event.finalized]) := by
  constructor
  · rw [runPipeline]
    simp [hmax]
  · rw [runPipeline]
    simp [hmax, drainSeq]

/-- Claim C10: the maximum-duration stop check is true iff a maximum duration
was configured and the elapsed time strictly exceeds it; with no configured
bound it is false for every elapsed value. -/
theorem claim10_theorem :
    (∀ t, maxTimeExceeded t none = false) ∧
    (∀ t d, maxTimeExceeded t (some d) = true ↔ d < t) := by
  constructor
  · intro t
    rfl
  · intro t d
    simp [maxTimeExceeded]

/-- Witness for C1's theorem at `width = height = 2`, a concrete frame, a
second frame differing only in alpha bytes, and the pixel at row 1, column
1. -/
theorem claim1_witness :
    (argb_to_yuv420 2 2 [1, 2, 3, 4, 5, 6, 7, 8, 9, 10, 11, 12, 13, 14, 15, 16]).bind
        (fun yuv => yuv.get? (1 * 2 + 1)) =
      some (calc_y (pix [1, 2, 3, 4, 5, 6, 7, 8, 9, 10, 11, 12, 13, 14, 15, 16]
        (1 * 2 + 1))) ∧
    (argb_to_yuv420_with_subsampling 2 2
        [1, 2, 3, 4, 5, 6, 7, 8, 9, 10, 11, 12, 13, 14, 15, 16]).bind
        (fun yuv => yuv.get? (1 * 2 + 1)) =
      some (calc_y (pix [1, 2, 3, 4, 5, 6, 7, 8, 9, 10, 11, 12, 13, 14, 15, 16]
        (1 * 2 + 1))) ∧
    (argb_to_yuv444 2 2 [1, 2, 3, 4, 5, 6, 7, 8, 9, 10, 11, 12, 13, 14, 15, 16]).bind
        (fun yuv => yuv.get? (1 * 2 + 1)) =
      some (calc_y (pix [1, 2, 3, 4, 5, 6, 7, 8, 9, 10, 11, 12, 13, 14, 15, 16]
        (1 * 2 + 1))) ∧
    argb_to_yuv420 2 2 [1, 2, 3, 4, 5, 6, 7, 8, 9, 10, 11, 12, 13, 14, 15, 16] =
      argb_to_yuv420 2 2 [1, 2, 3, 99, 5, 6, 7, 99, 9, 10, 11, 99, 13, 14, 15, 99] ∧
    argb_to_yuv420_with_subsampling 2 2
        [1, 2, 3, 4, 5, 6, 7, 8, 9, 10, 11, 12, 13, 14, 15, 16] =
      argb_to_yuv420_with_subsampling 2 2
        [1, 2, 3, 99, 5, 6, 7, 99, 9, 10, 11, 99, 13, 14, 15, 99] ∧
    argb_to_yuv444 2 2 [1, 2, 3, 4, 5, 6, 7, 8, 9, 10, 11, 12, 13, 14, 15, 16] =
      argb_to_yuv444 2 2 [1, 2, 3, 99, 5, 6, 7, 99, 9, 10, 11, 99, 13, 14, 15, 99] :=
  claim1_theorem 2 2 [1, 2, 3, 4, 5, 6, 7, 8, 9, 10, 11, 12, 13, 14, 15, 16]
    [1, 2, 3, 99, 5, 6, 7, 99, 9, 10, 11, 99, 13, 14, 15, 99] 1 1
    (by decide) (by decide) (by decide) (by decide) (by decide) (by decide) (by decide)

/-- Witness for C2's theorem at `width = 4`, `height = 2`, a concrete frame,
and the anchor at row 0, column 2. -/
theorem claim2_witness :
    (argb_to_yuv420 4 2 [0, 1, 2, 3, 4, 5, 6, 7, 8, 9, 10, 11, 12, 13, 14, 15, 16, 17,
        18, 19, 20, 21, 22, 23, 24, 25, 26, 27, 28, 29, 30, 31]).bind
        (fun yuv => yuv.get? (4 * 2 + (0 / 2 * (4 / 2) + 2 / 2))) =
      some (clamp (calc_u (pix [0, 1, 2, 3, 4, 5, 6, 7, 8, 9, 10, 11, 12, 13, 14, 15,
        16, 17, 18, 19, 20, 21, 22, 23, 24, 25, 26, 27, 28, 29, 30, 31] (0 * 4 + 2)))) ∧
    (argb_to_yuv420 4 2 [0, 1, 2, 3, 4, 5, 6, 7, 8, 9, 10, 11, 12, 13, 14, 15, 16, 17,
        18, 19, 20, 21, 22, 23, 24, 25, 26, 27, 28, 29, 30, 31]).bind
        (fun yuv => yuv.get? (4 * 2 + 4 * 2 / 4 + (0 / 2 * (4 / 2) + 2 / 2))) =
      some (clamp (calc_v (pix [0, 1, 2, 3, 4, 5, 6, 7, 8, 9, 10, 11, 12, 13, 14, 15,
        16, 17, 18, 19, 20, 21, 22, 23, 24, 25, 26, 27, 28, 29, 30, 31] (0 * 4 + 2)))) ∧
    (argb_to_yuv420 4 2 [0, 1, 2, 3, 4, 5, 6, 7, 8, 9, 10, 11, 12, 13, 14, 15, 16, 17,
        18, 19, 20, 21, 22, 23, 24, 25, 26, 27, 28, 29, 30, 31]).map
        (fun yuv => yuv.drop (4 * 2)) =
      some ((anchors 4 (4 * 2) 0).map (fun p => clamp (calc_u (pix [0, 1, 2, 3, 4, 5,
        6, 7, 8, 9, 10, 11, 12, 13, 14, 15, 16, 17, 18, 19, 20, 21, 22, 23, 24, 25,
        26, 27, 28, 29, 30, 31] p))) ++
        (anchors 4 (4 * 2) 0).map (fun p => clamp (calc_v (pix [0, 1, 2, 3, 4, 5, 6,
        7, 8, 9, 10, 11, 12, 13, 14, 15, 16, 17, 18, 19, 20, 21, 22, 23, 24, 25, 26,
        27, 28, 29, 30, 31] p)))) ∧
    (anchors 4 (4 * 2) 0).all (fun p => isAnchor 4 p) = true :=
  claim2_theorem 4 2 [0, 1, 2, 3, 4, 5, 6, 7, 8, 9, 10, 11, 12, 13, 14, 15, 16, 17,
    18, 19, 20, 21, 22, 23, 24, 25, 26, 27, 28, 29, 30, 31] 0 2
    (by decide) (by decide) (by decide) (by decide) (by decide) (by decide) (by decide)

/-- Witness for C3's theorem at `width = 4`, `height = 2`, a concrete frame,
and the block anchored at row 0, column 2. -/
theorem claim3_witness :
    (argb_to_yuv420_with_subsampling 4 2 [0, 1, 2, 3, 4, 5, 6, 7, 8, 9, 10, 11, 12,
        13, 14, 15, 16, 17, 18, 19, 20, 21, 22, 23, 24, 25, 26, 27, 28, 29, 30, 31]).bind
        (fun yuv => yuv.get? (4 * 2 + (0 / 2 * (4 / 2) + 2 / 2))) =
      some (clamp ((calc_u (pix [0, 1, 2, 3, 4, 5, 6, 7, 8, 9, 10, 11, 12, 13, 14, 15,
          16, 17, 18, 19, 20, 21, 22, 23, 24, 25, 26, 27, 28, 29, 30, 31] (0 * 4 + 2)) +
        calc_u (pix [0, 1, 2, 3, 4, 5, 6, 7, 8, 9, 10, 11, 12, 13, 14, 15, 16, 17, 18,
          19, 20, 21, 22, 23, 24, 25, 26, 27, 28, 29, 30, 31] (0 * 4 + 2 + 1)) +
        calc_u (pix [0, 1, 2, 3, 4, 5, 6, 7, 8, 9, 10, 11, 12, 13, 14, 15, 16, 17, 18,
          19, 20, 21, 22, 23, 24, 25, 26, 27, 28, 29, 30, 31] (0 * 4 + 2 + 4)) +
        calc_u (pix [0, 1, 2, 3, 4, 5, 6, 7, 8, 9, 10, 11, 12, 13, 14, 15, 16, 17, 18,
          19, 20, 21, 22, 23, 24, 25, 26, 27, 28, 29, 30, 31] (0 * 4 + 2 + 4 + 1))).tdiv 4)) ∧
    (argb_to_yuv420_with_subsampling 4 2 [0, 1, 2, 3, 4, 5, 6, 7, 8, 9, 10, 11, 12,
        13, 14, 15, 16, 17, 18, 19, 20, 21, 22, 23, 24, 25, 26, 27, 28, 29, 30, 31]).bind
        (fun yuv => yuv.get? (4 * 2 + 4 * 2 / 4 + (0 / 2 * (4 / 2) + 2 / 2))) =
      some (clamp ((calc_v (pix [0, 1, 2, 3, 4, 5, 6, 7, 8, 9, 10, 11, 12, 13, 14, 15,
          16, 17, 18, 19, 20, 21, 22, 23, 24, 25, 26, 27, 28, 29, 30, 31] (0 * 4 + 2)) +
        calc_v (pix [0, 1, 2, 3, 4, 5, 6, 7, 8, 9, 10, 11, 12, 13, 14, 15, 16, 17, 18,
          19, 20, 21, 22, 23, 24, 25, 26, 27, 28, 29, 30, 31] (0 * 4 + 2 + 1)) +
        calc_v (pix [0, 1, 2, 3, 4, 5, 6, 7, 8, 9, 10, 11, 12, 13, 14, 15, 16, 17, 18,
          19, 20, 21, 22, 23, 24, 25, 26, 27, 28, 29, 30, 31] (0 * 4 + 2 + 4)) +
        calc_v (pix [0, 1, 2, 3, 4, 5, 6, 7, 8, 9, 10, 11, 12, 13, 14, 15, 16, 17, 18,
          19, 20, 21, 22, 23, 24, 25, 26, 27, 28, 29, 30, 31] (0 * 4 + 2 + 4 + 1))).tdiv 4)) :=
  claim3_theorem 4 2 [0, 1, 2, 3, 4, 5, 6, 7, 8, 9, 10, 11, 12, 13, 14, 15, 16, 17,
    18, 19, 20, 21, 22, 23, 24, 25, 26, 27, 28, 29, 30, 31] 0 2
    (by decide) (by decide) (by decide) (by decide) (by decide) (by decide) (by decide)

/-- Witness for C4's theorem at `width = height = 2` and a concrete frame. -/
theorem claim4_witness :
    (argb_to_yuv420 2 2 [1, 2, 3, 4, 5, 6, 7, 8, 9, 10, 11, 12, 13, 14, 15, 16]).map
        List.length = some (2 * 2 * 3 / 2) ∧
    (argb_to_yuv420_with_subsampling 2 2
        [1, 2, 3, 4, 5, 6, 7, 8, 9, 10, 11, 12, 13, 14, 15, 16]).map List.length =
      some (2 * 2 * 3 / 2) ∧
    (argb_to_yuv444 2 2 [1, 2, 3, 4, 5, 6, 7, 8, 9, 10, 11, 12, 13, 14, 15, 16]).map
        List.length = some (2 * 2 * 3) :=
  claim4_theorem 2 2 [1, 2, 3, 4, 5, 6, 7, 8, 9, 10, 11, 12, 13, 14, 15, 16]
    (by decide) (by decide) (by decide)

/-- Witness for C5's theorem at `width = height = 2` and a concrete frame. -/
theorem claim5_witness :
    (process_frame 2 2 [1, 2, 3, 4, 5, 6, 7, 8, 9, 10, 11, 12, 13, 14, 15, 16]).map
        (fun sub => sub.2) = some vpx_img_fmt.VPX_IMG_FMT_I444 ∧
    (process_frame 2 2 [1, 2, 3, 4, 5, 6, 7, 8, 9, 10, 11, 12, 13, 14, 15, 16]).map
        (fun sub => sub.1.length) = some (2 * 2 * 3 / 2) ∧
    2 * 2 * 3 / 2 ≠ fmtFrameSize vpx_img_fmt.VPX_IMG_FMT_I444 2 2 :=
  claim5_theorem 2 2 [1, 2, 3, 4, 5, 6, 7, 8, 9, 10, 11, 12, 13, 14, 15, 16]
    (by decide) (by decide) (by decide) (by decide)

/-- Witness for C8's theorem at `width = height = 2` and a concrete frame. -/
theorem claim8_witness :
    (argb_to_yuv420 2 2 [1, 2, 3, 4, 5, 6, 7, 8, 9, 10, 11, 12, 13, 14, 15, 16]).isSome
        = true ∧
    (argb_to_yuv420_with_subsampling 2 2
        [1, 2, 3, 4, 5, 6, 7, 8, 9, 10, 11, 12, 13, 14, 15, 16]).isSome = true ∧
    (argb_to_yuv444 2 2 [1, 2, 3, 4, 5, 6, 7, 8, 9, 10, 11, 12, 13, 14, 15, 16]).isSome
        = true ∧
    (anchors 2 (2 * 2) 0).length = 2 * 2 / 4 :=
  claim8_theorem 2 2 [1, 2, 3, 4, 5, 6, 7, 8, 9, 10, 11, 12, 13, 14, 15, 16]
    (by decide) (by decide) (by decide)

/-- Witness for C9's theorem with a concrete encoder model and loop state. -/
theorem claim9_witness :
    runPipeline (fun (e : Nat) (t : Nat) (_ : List Nat) (_ : vpx_img_fmt) => (e + 1, [t]))
        (fun e => [e, 7]) 2 2 none (⟨false, 3, FrameResult.wouldBlock⟩ :: []) 5 [1] [] =
      runPipeline (fun (e : Nat) (t : Nat) (_ : List Nat) (_ : vpx_img_fmt) => (e + 1, [t]))
        (fun e => [e, 7]) 2 2 none [] 5 [1] ([] ++ [Event.paced]) ∧
    runPipeline (fun (e : Nat) (t : Nat) (_ : List Nat) (_ : vpx_img_fmt) => (e + 1, [t]))
        (fun e => [e, 7]) 2 2 none (⟨false, 3, FrameResult.fatal⟩ :: []) 5 [1] [] =
      some ([1] ++ [5, 7], [] ++ [Event.errorReported] ++
        Event.finishCalled :: [Event.muxAdd 5, Event.muxAdd 7] ++ [Event.finalized]) :=
  claim9_theorem Nat (fun e t _ _ => (e + 1, [t])) (fun e => [e, 7]) 2 2 none [] 5 [1]
    [] 3 (by decide)
